import Mathlib

/-!
A line-oriented text editor with snapshot undo/redo

Shallow embedding of `src/texteditor.cpp` (class `TextEditor`) and theorems about its
edit/history core.

Modelling conventions.

* `std::string` is a `List Char`; `std::vector<FormattedText>` is a `List FormattedText`.
* `std::stack` is a list whose head is the top: `push` is cons, `pop` is `tail`.
* The cursor fields are `int` in the source.  Every assignment the source makes to them
  yields a non-negative value (the initial value is `{0, 0}`), so they are natural numbers
  here, and sizes are taken to fit the machine types.  The one place where unsigned
  arithmetic wraps for small values, `content.size() - 1` on an empty vector, is modelled
  explicitly (`ltSizeMinusOne`).
* Line numbers typed by the user (`int lineNum`) are integers and may be zero or negative.
* An out-of-range `content[i]` (undefined behaviour) and an uncaught `std::out_of_range`
  thrown by `std::string::insert` / `erase` are both modelled as `none`: the operation
  yields no next state.
* The `void` member functions report through the console; the embedding returns a `Status`
  naming the branch that ran.
-/

/-- Cursor position, `struct CursorPosition`. -/
structure CursorPosition where
  line : Nat := 0
  column : Nat := 0
deriving DecidableEq, Repr

/-- A styled line, `struct FormattedText`. -/
structure FormattedText where
  text : List Char
  bold : Bool := false
  italic : Bool := false
  underline : Bool := false
deriving DecidableEq, Repr

/-- The private data members of `class TextEditor`. -/
structure TextEditor where
  content : List FormattedText
  undoStack : List (List FormattedText)
  redoStack : List (List FormattedText)
  cursorPosition : CursorPosition
deriving DecidableEq, Repr

/-- Which branch of a member function ran, named after what it writes to the console. -/
inductive Status where
  /-- The body ran to its end; nothing is printed. -/
  | done
  /-- Branch where `searchAndReplace` printed "All instances of ... have been replaced". -/
  | allReplaced
  /-- Branch where `searchAndReplace` printed "No instances of ... were found". -/
  | noInstances
  /-- Branch where `insertLine` / `deleteLine` printed "Invalid line number!" and returned. -/
  | invalidLineNumber
  /-- Branch where `searchAndReplace` printed "Search text cannot be empty!" and returned. -/
  | emptySearchText
  /-- Branch where `deleteCharAtCursor` printed "Nothing to delete!" and returned. -/
  | nothingToDelete
  /-- Branch where `undo` found `undoStack.empty()` and skipped its body (the source is silent). -/
  | nothingToUndo
  /-- Branch where `redo` found `redoStack.empty()` and skipped its body (the source is silent). -/
  | nothingToRedo
deriving DecidableEq, Repr

/-- The statuses of the branches that return without running the operation. -/
def Status.isFailure : Status → Bool
  | .invalidLineNumber => true
  | .emptySearchText => true
  | .nothingToDelete => true
  | .nothingToUndo => true
  | .nothingToRedo => true
  | _ => false

namespace TextEditor

/-! ## History -/

/-- Member function `saveStateForUndo`: `undoStack.push(content); if (undoStack.size() > 10) undoStack.pop();`.
`std::stack::pop` removes the top, that is the element just pushed. -/
def saveStateForUndo (e : TextEditor) : TextEditor :=
  let pushed := e.content :: e.undoStack
  { e with undoStack := if pushed.length > 10 then pushed.tail else pushed }

/-- The loop `while (!s.empty()) s.pop();`. -/
def popAll {α : Type} : List α → List α
  | [] => []
  | _ :: rest => popAll rest

/-- Member function `clearRedoHistory`. -/
def clearRedoHistory (e : TextEditor) : TextEditor :=
  { e with redoStack := popAll e.redoStack }

/-- Member function `clearHistory`. -/
def clearHistory (e : TextEditor) : TextEditor :=
  { e with undoStack := popAll e.undoStack, redoStack := popAll e.redoStack }

/-- Member function `undo`. -/
def undo (e : TextEditor) : Status × TextEditor :=
  match e.undoStack with
  | [] => (.nothingToUndo, e)
  | top :: rest =>
      (.done, { e with redoStack := e.content :: e.redoStack, content := top, undoStack := rest })

/-- Member function `redo`. -/
def redo (e : TextEditor) : Status × TextEditor :=
  match e.redoStack with
  | [] => (.nothingToRedo, e)
  | top :: rest =>
      (.done, { e with undoStack := e.content :: e.undoStack, content := top, redoStack := rest })

/-- The successful path of `openFile`: one unstyled line per row of the file, cursor reset,
history cleared. -/
def openFile (rows : List (List Char)) (e : TextEditor) : TextEditor :=
  clearHistory
    { e with content := rows.map (fun row => { text := row }), cursorPosition := ⟨0, 0⟩ }

/-! ## Line edits -/

/-- Member function `insertLine`. -/
def insertLine (lineNum : Int) (formattedText : FormattedText) (e : TextEditor) : Status × TextEditor :=
  if lineNum < 1 ∨ lineNum > (e.content.length : Int) + 1 then (.invalidLineNumber, e)
  else
    let e1 := saveStateForUndo e
    let e2 := { e1 with content := e1.content.insertIdx (lineNum - 1).toNat formattedText }
    let e3 := { e2 with
      cursorPosition := ⟨(lineNum - 1).toNat, formattedText.text.length⟩ }
    (.done, clearRedoHistory e3)

/-- Member function `deleteLine`. -/
def deleteLine (lineNum : Int) (e : TextEditor) : Status × TextEditor :=
  if lineNum < 1 ∨ lineNum > (e.content.length : Int) then (.invalidLineNumber, e)
  else
    let e1 := saveStateForUndo e
    let e2 := { e1 with content := e1.content.eraseIdx (lineNum - 1).toNat }
    let e3 := { e2 with cursorPosition := ⟨(max 0 (lineNum - 2)).toNat, 0⟩ }
    (.done, clearRedoHistory e3)

/-! ## Search and replace -/

/-- The call `text.find(pat)` from offset 0: the first index at which `pat` occurs, `none` for `npos`. -/
def findFirst (pat : List Char) : List Char → Option Nat
  | [] => if pat.isPrefixOf [] then some 0 else none
  | c :: cs => if pat.isPrefixOf (c :: cs) then some 0 else (findFirst pat cs).map (· + 1)

/-- The call `text.find(pat, pos)`: the first index `≥ pos` at which `pat` occurs. -/
def find (text pat : List Char) (pos : Nat) : Option Nat :=
  if pos > text.length then none else (findFirst pat (text.drop pos)).map (· + pos)

/-- The call `text.replace(pos, len, str)` for `pos ≤ text.size()`. -/
def strReplace (text : List Char) (pos len : Nat) (str : List Char) : List Char :=
  text.take pos ++ str ++ text.drop (pos + len)

/-- The inner `while (pos != string::npos)` loop of `searchAndReplace` on one line, with the
loop state `(line.text, pos, replaced)`.  `none` means the fuel ran out before the loop ended. -/
def replaceLoop (searchText replaceText : List Char) :
    Nat → List Char → Option Nat → Bool → Option (List Char × Bool)
  | _, text, none, replaced => some (text, replaced)
  | 0, _, some _, _ => none
  | fuel + 1, text, some pos, _ =>
      let text1 := strReplace text pos searchText.length replaceText
      replaceLoop searchText replaceText fuel text1
        (find text1 searchText (pos + replaceText.length)) true

/-- One iteration of `for (FormattedText& line : content)`: the loop is given one unit of fuel
per character of the line. -/
def replaceInLine (searchText replaceText : List Char) (line : FormattedText) (replaced : Bool) :
    Option (FormattedText × Bool) :=
  (replaceLoop searchText replaceText line.text.length line.text
      (find line.text searchText 0) replaced).map
    (fun p => ({ line with text := p.1 }, p.2))

/-- The loop `for (FormattedText& line : content)` of `searchAndReplace`, threading the flag
`replaced`. -/
def replaceInLines (searchText replaceText : List Char) :
    List FormattedText → Bool → Option (List FormattedText × Bool)
  | [], replaced => some ([], replaced)
  | line :: rest, replaced =>
      match replaceInLine searchText replaceText line replaced with
      | none => none
      | some (line1, replaced1) =>
          match replaceInLines searchText replaceText rest replaced1 with
          | none => none
          | some (rest1, replaced2) => some (line1 :: rest1, replaced2)

/-- Member function `searchAndReplace`.  `none` only if an inner loop ran out of fuel. -/
def searchAndReplace (searchText replaceText : List Char) (e : TextEditor) :
    Option (Status × TextEditor) :=
  if searchText.isEmpty then some (.emptySearchText, e)
  else
    let e1 := saveStateForUndo e
    match replaceInLines searchText replaceText e1.content false with
    | none => none
    | some (content1, replaced) =>
        some (if replaced then .allReplaced else .noInstances,
          clearRedoHistory { e1 with content := content1 })

/-! ## Cursor movement and character edits -/

/-- The comparison `cursorPosition.line < content.size() - 1`, carried out in `size_t`:
on an empty vector the right-hand side wraps to `SIZE_MAX`, above every cursor line. -/
def ltSizeMinusOne (line size : Nat) : Bool :=
  if size = 0 then true else decide (line < size - 1)

/-- Member function `moveCursor`. -/
def moveCursor (direction : Char) (e : TextEditor) : Option TextEditor :=
  let cur := e.cursorPosition
  if direction = 'w' then
    match e.content[cur.line - 1]? with
    | none => none
    | some l =>
        some { e with cursorPosition := ⟨cur.line - 1, min l.text.length cur.column⟩ }
  else if direction = 'a' then
    if cur.column > 0 then
      some { e with cursorPosition := ⟨cur.line, cur.column - 1⟩ }
    else if cur.line > 0 then
      match e.content[cur.line - 1]? with
      | none => none
      | some l => some { e with cursorPosition := ⟨cur.line - 1, l.text.length⟩ }
    else some e
  else if direction = 's' then
    if ltSizeMinusOne cur.line e.content.length then
      match e.content[cur.line + 1]? with
      | none => none
      | some l =>
          some { e with cursorPosition := ⟨cur.line + 1, min cur.column l.text.length⟩ }
    else some e
  else if direction = 'd' then
    match e.content[cur.line]? with
    | none => none
    | some l =>
        if cur.column < l.text.length then
          some { e with cursorPosition := ⟨cur.line, cur.column + 1⟩ }
        else if ltSizeMinusOne cur.line e.content.length then
          some { e with cursorPosition := ⟨cur.line + 1, 0⟩ }
        else some e
  else some e

/-- Member function `insertCharAtCursor`.  `text.insert(column, 1, c)` throws when `column > text.size()`. -/
def insertCharAtCursor (c : Char) (e : TextEditor) : Option TextEditor :=
  let e1 := saveStateForUndo e
  let cur := e1.cursorPosition
  match e1.content[cur.line]? with
  | none => none
  | some l =>
      if cur.column > l.text.length then none
      else
        let l1 := { l with text := l.text.insertIdx cur.column c }
        some (clearRedoHistory { e1 with
          content := e1.content.set cur.line l1
          cursorPosition := ⟨cur.line, cur.column + 1⟩ })

/-- Member function `deleteCharAtCursor`.  `text.erase(column - 1, 1)` throws when `column - 1 > text.size()`
and erases nothing when `column - 1 = text.size()`. -/
def deleteCharAtCursor (e : TextEditor) : Option (Status × TextEditor) :=
  if e.cursorPosition.column = 0 ∧ e.cursorPosition.line = 0 then some (.nothingToDelete, e)
  else
    let e1 := saveStateForUndo e
    let cur := e1.cursorPosition
    if cur.column > 0 then
      match e1.content[cur.line]? with
      | none => none
      | some l =>
          if cur.column - 1 > l.text.length then none
          else
            let l1 := { l with text := l.text.eraseIdx (cur.column - 1) }
            some (.done, clearRedoHistory { e1 with
              content := e1.content.set cur.line l1
              cursorPosition := ⟨cur.line, cur.column - 1⟩ })
    else if cur.line > 0 then
      match e1.content[cur.line - 1]?, e1.content[cur.line]? with
      | some prev, some l =>
          let merged := { prev with text := prev.text ++ l.text }
          some (.done, clearRedoHistory { e1 with
            content := (e1.content.set (cur.line - 1) merged).eraseIdx cur.line
            cursorPosition := ⟨cur.line - 1, prev.text.length⟩ })
      | _, _ => none
    else some (.done, clearRedoHistory e1)

/-! ## The command loop -/

/-- The state-changing commands `main` dispatches to the editor. -/
inductive Command where
  | insertLine (lineNum : Int) (formattedText : FormattedText)
  | deleteLine (lineNum : Int)
  | searchAndReplace (searchText replaceText : List Char)
  | undo
  | redo
  | moveCursor (direction : Char)
  | insertCharAtCursor (c : Char)
  | deleteCharAtCursor
deriving DecidableEq, Repr

/-- One command: the status reported and the next state, `none` when the command has no
defined next state. -/
def exec (e : TextEditor) : Command → Option (Status × TextEditor)
  | .insertLine lineNum formattedText => some (insertLine lineNum formattedText e)
  | .deleteLine lineNum => some (deleteLine lineNum e)
  | .searchAndReplace searchText replaceText => searchAndReplace searchText replaceText e
  | .undo => some (undo e)
  | .redo => some (redo e)
  | .moveCursor direction => (moveCursor direction e).map (fun e1 => (.done, e1))
  | .insertCharAtCursor c => (insertCharAtCursor c e).map (fun e1 => (.done, e1))
  | .deleteCharAtCursor => deleteCharAtCursor e

/-- A sequence of commands run from `e`, as the `while (true)` loop of `main` does. -/
def run (e : TextEditor) : List Command → Option TextEditor
  | [] => some e
  | c :: cs =>
      match exec e c with
      | none => none
      | some (_, e1) => run e1 cs

/-- The commands that take a snapshot: all but `undo`, `redo` and `moveCursor`. -/
def Command.isEdit : Command → Bool
  | .insertLine _ _ => true
  | .deleteLine _ => true
  | .searchAndReplace _ _ => true
  | .insertCharAtCursor _ => true
  | .deleteCharAtCursor => true
  | _ => false

/-- The cursor invariant on a non-empty document: the cursor line exists and the column is at
most the length of its text. -/
def cursorInRange (e : TextEditor) : Bool :=
  match e.content[e.cursorPosition.line]? with
  | some l => decide (e.cursorPosition.column ≤ l.text.length)
  | none => false

/-- Reference replace-all on one line, written from the specification: the original text is
scanned left to right; at an occurrence of `search` the replacement is emitted and the scan
resumes just after the occurrence, otherwise the character is kept.  `skip` counts the
characters of the current occurrence still to be passed over. -/
def replaceAllRef (search replacement : List Char) : Nat → List Char → List Char
  | _, [] => []
  | skip + 1, _ :: cs => replaceAllRef search replacement skip cs
  | 0, c :: cs =>
      if search.isPrefixOf (c :: cs) then
        replacement ++ replaceAllRef search replacement (search.length - 1) cs
      else c :: replaceAllRef search replacement 0 cs

/-- The history bound kept by every command: the two stacks together hold at most 10
snapshots. -/
def historyBounded (e : TextEditor) : Prop :=
  e.undoStack.length + e.redoStack.length ≤ 10

/-- A default-constructed editor: no lines, empty stacks, cursor `{0, 0}`. -/
def empty : TextEditor := ⟨[], [], [], ⟨0, 0⟩⟩

/-- The line `{"a"}` with no style. -/
def lineA : FormattedText := ⟨['a'], false, false, false⟩

/-- Ten times the command `insertLine(1, {"a"})`. -/
def tenInserts : List Command := List.replicate 10 (.insertLine 1 lineA)

/-- The two unstyled lines `"abc"` and `"abcabc"`. -/
def abcLines : List FormattedText :=
  [⟨"abc".data, false, false, false⟩, ⟨"abcabc".data, false, false, false⟩]

/-- The style flags `(bold, italic, underline)` of every line, in order. -/
def styles (content : List FormattedText) : List (Bool × Bool × Bool) :=
  content.map (fun l => (l.bold, l.italic, l.underline))

/-- Length of the text of line `i` of a document, `0` when there is no such line. -/
def lineLength (content : List FormattedText) (i : Nat) : Nat :=
  match content[i]? with
  | some l => l.text.length
  | none => 0

/-- Reference cursor movement, written from the specification.  Up: the line is decremented
(floor 0) and the column clamped to the new line length.  Down: the line is incremented
(ceiling: the last line index) and the column clamped to the new line length.  Left: the
column is decremented, or at column 0 of a line other than the first the cursor wraps to the
end of the previous line.  Right: the column is incremented when it is before the end of the
line, or at the end of a line other than the last the cursor wraps to column 0 of the next
line. -/
def moveCursorRef (direction : Char) (content : List FormattedText) (cur : CursorPosition) :
    CursorPosition :=
  if direction = 'w' then
    ⟨cur.line - 1, min cur.column (lineLength content (cur.line - 1))⟩
  else if direction = 's' then
    ⟨min (content.length - 1) (cur.line + 1),
      min cur.column (lineLength content (min (content.length - 1) (cur.line + 1)))⟩
  else if direction = 'a' then
    if cur.column > 0 then ⟨cur.line, cur.column - 1⟩
    else if cur.line > 0 then ⟨cur.line - 1, lineLength content (cur.line - 1)⟩
    else cur
  else if direction = 'd' then
    if cur.column < lineLength content cur.line then ⟨cur.line, cur.column + 1⟩
    else if cur.line ≠ content.length - 1 then ⟨cur.line + 1, 0⟩
    else cur
  else cur

/-- The styled line `{"new", bold = true}`. -/
def lineNew : FormattedText := ⟨"new".data, true, false, false⟩

/-- The one-line document `["hello"]` with the cursor at `{0, 5}` and empty history. -/
def helloEditor : TextEditor := ⟨[⟨"hello".data, false, false, false⟩], [], [], ⟨0, 5⟩⟩

/-! ## History: basic facts -/

@[simp] theorem popAll_eq_nil {α : Type} (l : List α) : popAll l = [] := by
  induction l with
  | nil => rfl
  | cons _ _ ih => simpa [popAll] using ih

@[simp] theorem clearRedoHistory_redoStack (e : TextEditor) :
    (clearRedoHistory e).redoStack = [] := by
  simp [clearRedoHistory]

@[simp] theorem clearRedoHistory_content (e : TextEditor) :
    (clearRedoHistory e).content = e.content := rfl

@[simp] theorem clearRedoHistory_undoStack (e : TextEditor) :
    (clearRedoHistory e).undoStack = e.undoStack := rfl

@[simp] theorem clearRedoHistory_cursorPosition (e : TextEditor) :
    (clearRedoHistory e).cursorPosition = e.cursorPosition := rfl

@[simp] theorem saveStateForUndo_content (e : TextEditor) :
    (saveStateForUndo e).content = e.content := rfl

@[simp] theorem saveStateForUndo_redoStack (e : TextEditor) :
    (saveStateForUndo e).redoStack = e.redoStack := rfl

@[simp] theorem saveStateForUndo_cursorPosition (e : TextEditor) :
    (saveStateForUndo e).cursorPosition = e.cursorPosition := rfl

/-- With fewer than 10 snapshots on the stack, `saveStateForUndo` pushes the content. -/
theorem saveStateForUndo_undoStack_of_lt (e : TextEditor) (h : e.undoStack.length < 10) :
    (saveStateForUndo e).undoStack = e.content :: e.undoStack := by
  have h1 : ¬ (e.undoStack.length + 1 > 10) := by omega
  simp [saveStateForUndo, h1]

/-- With 10 or more snapshots on the stack, `saveStateForUndo` leaves the stack as it was:
the snapshot it pushes is the one it pops. -/
theorem saveStateForUndo_undoStack_of_ge (e : TextEditor) (h : 10 ≤ e.undoStack.length) :
    (saveStateForUndo e).undoStack = e.undoStack := by
  have h1 : e.undoStack.length + 1 > 10 := by omega
  simp [saveStateForUndo, h1]

/-- The undo stack is never empty after `saveStateForUndo`. -/
theorem saveStateForUndo_undoStack_ne_nil (e : TextEditor) :
    (saveStateForUndo e).undoStack ≠ [] := by
  by_cases h : e.undoStack.length < 10
  · simp [saveStateForUndo_undoStack_of_lt e h]
  · rw [saveStateForUndo_undoStack_of_ge e (by omega)]
    intro h0
    simp [h0] at h

/-- The depth after `saveStateForUndo` is at most 10 when it was at most 10 before. -/
theorem saveStateForUndo_undoStack_length_le (e : TextEditor) (h : e.undoStack.length ≤ 10) :
    (saveStateForUndo e).undoStack.length ≤ 10 := by
  by_cases h1 : e.undoStack.length < 10
  · rw [saveStateForUndo_undoStack_of_lt e h1]
    simp
    omega
  · rw [saveStateForUndo_undoStack_of_ge e (by omega)]
    exact h

/-- What every snapshot-taking command does to the history: a refused command changes
nothing; otherwise the undo stack is the one `saveStateForUndo` leaves and the redo stack is
empty. -/
theorem exec_edit_history (e e1 : TextEditor) (c : Command) (st : Status)
    (hc : c.isEdit = true) (h : exec e c = some (st, e1)) :
    (st.isFailure = true ∧ e1 = e) ∨
    (st.isFailure = false ∧ e1.undoStack = (saveStateForUndo e).undoStack ∧ e1.redoStack = []) := by
  cases c with
  | insertLine lineNum formattedText =>
      simp only [exec, insertLine, Option.some.injEq] at h
      split at h
      · cases h; left; exact ⟨rfl, rfl⟩
      · cases h; right; exact ⟨rfl, rfl, by simp⟩
  | deleteLine lineNum =>
      simp only [exec, deleteLine, Option.some.injEq] at h
      split at h
      · cases h; left; exact ⟨rfl, rfl⟩
      · cases h; right; exact ⟨rfl, rfl, by simp⟩
  | searchAndReplace searchText replaceText =>
      simp only [exec, searchAndReplace] at h
      split at h
      · cases h; left; exact ⟨rfl, rfl⟩
      · split at h
        · cases h
        · cases h
          right
          refine ⟨?_, rfl, by simp⟩
          split <;> rfl
  | undo => cases hc
  | redo => cases hc
  | moveCursor direction => cases hc
  | insertCharAtCursor ch =>
      simp only [exec, insertCharAtCursor, Option.map_eq_some'] at h
      obtain ⟨e2, h2, h3⟩ := h
      cases h3
      split at h2
      · cases h2
      · split at h2
        · cases h2
        · cases h2; right; exact ⟨rfl, rfl, by simp⟩
  | deleteCharAtCursor =>
      simp only [exec, deleteCharAtCursor] at h
      split at h
      · cases h; left; exact ⟨rfl, rfl⟩
      · split at h
        · split at h
          · cases h
          · split at h
            · cases h
            · cases h; right; exact ⟨rfl, rfl, by simp⟩
        · split at h
          · split at h
            · cases h; right; exact ⟨rfl, rfl, by simp⟩
            · cases h
          · cases h; right; exact ⟨rfl, rfl, by simp⟩

/-- A successful snapshot-taking command from a stack with room (fewer than 10 snapshots)
is undone exactly: `undo` restores the content and the undo stack of before the command. -/
theorem undo_after_edit_of_lt (e e1 : TextEditor) (c : Command) (st : Status)
    (hc : c.isEdit = true) (h : exec e c = some (st, e1)) (hst : st.isFailure = false)
    (hlen : e.undoStack.length < 10) :
    (undo e1).1 = .done ∧ (undo e1).2.content = e.content ∧
      (undo e1).2.undoStack = e.undoStack := by
  rcases exec_edit_history e e1 c st hc h with ⟨hf, _⟩ | ⟨_, hu, _⟩
  · rw [hst] at hf; cases hf
  · rw [saveStateForUndo_undoStack_of_lt e hlen] at hu
    simp [undo, hu]

/-- A successful snapshot-taking command from a stack holding 10 or more snapshots is not
undone: `undo` installs the snapshot that was on top before the command. -/
theorem undo_after_edit_of_ge (e e1 : TextEditor) (c : Command) (st : Status)
    (top : List FormattedText) (rest : List (List FormattedText))
    (hc : c.isEdit = true) (h : exec e c = some (st, e1)) (hst : st.isFailure = false)
    (hstack : e.undoStack = top :: rest) (hlen : 10 ≤ e.undoStack.length) :
    (undo e1).1 = .done ∧ (undo e1).2.content = top ∧ (undo e1).2.undoStack = rest := by
  rcases exec_edit_history e e1 c st hc h with ⟨hf, _⟩ | ⟨_, hu, _⟩
  · rw [hst] at hf; cases hf
  · rw [saveStateForUndo_undoStack_of_ge e hlen, hstack] at hu
    simp [undo, hu]

/-- On a non-empty undo stack, `undo` then `redo` gives back the content and both stacks. -/
theorem redo_undo_eq (e : TextEditor) (h : e.undoStack ≠ []) :
    (undo e).1 = .done ∧ redo (undo e).2 = (.done, e) := by
  cases e with
  | mk content undoStack redoStack cursorPosition =>
    cases undoStack with
    | nil => exact absurd rfl h
    | cons top rest => exact ⟨rfl, rfl⟩

/-- The function `moveCursor` changes at most the cursor. -/
theorem moveCursor_frame (direction : Char) (e e1 : TextEditor)
    (h : moveCursor direction e = some e1) :
    e1.content = e.content ∧ e1.undoStack = e.undoStack ∧ e1.redoStack = e.redoStack := by
  simp only [moveCursor] at h
  split_ifs at h <;> (try split at h) <;> (try split_ifs at h) <;>
    first
      | (cases h; exact ⟨rfl, rfl, rfl⟩)
      | cases h

theorem exec_historyBounded (e e1 : TextEditor) (c : Command) (st : Status)
    (h : exec e c = some (st, e1)) (hb : historyBounded e) : historyBounded e1 := by
  unfold historyBounded at hb ⊢
  by_cases hc : c.isEdit = true
  · rcases exec_edit_history e e1 c st hc h with ⟨_, he⟩ | ⟨_, hu, hr⟩
    · rw [he]; exact hb
    · have := saveStateForUndo_undoStack_length_le e (by omega)
      rw [hu, hr]
      simpa using this
  · cases c with
    | undo =>
        simp only [exec, undo, Option.some.injEq] at h
        split at h
        · cases h; exact hb
        · rename_i top rest hs
          cases h
          simp only [hs, List.length_cons] at hb ⊢
          omega
    | redo =>
        simp only [exec, redo, Option.some.injEq] at h
        split at h
        · cases h; exact hb
        · rename_i top rest hs
          cases h
          simp only [hs, List.length_cons] at hb ⊢
          omega
    | moveCursor direction =>
        simp only [exec, Option.map_eq_some'] at h
        obtain ⟨e2, h2, h3⟩ := h
        have h4 : e2 = e1 := (Prod.mk.inj h3).2
        rw [← h4]
        obtain ⟨_, hu, hr⟩ := moveCursor_frame direction e e2 h2
        rw [hu, hr]; exact hb
    | insertLine _ _ => exact absurd rfl hc
    | deleteLine _ => exact absurd rfl hc
    | searchAndReplace _ _ => exact absurd rfl hc
    | insertCharAtCursor _ => exact absurd rfl hc
    | deleteCharAtCursor => exact absurd rfl hc

theorem run_historyBounded (cmds : List Command) (e e1 : TextEditor)
    (h : run e cmds = some e1) (hb : historyBounded e) : historyBounded e1 := by
  induction cmds generalizing e with
  | nil =>
      simp only [run, Option.some.injEq] at h
      rw [← h]; exact hb
  | cons c cs ih =>
      simp only [run] at h
      split at h
      · cases h
      · rename_i st e2 hex
        exact ih e2 h (exec_historyBounded e e2 c st hex hb)

/-! ## Undo and redo around an edit -/

/-- C1 (evaluation at the failing input): after `openFile` on an empty file and ten
`insertLine(1, "a")`, the undo stack holds 10 snapshots and the document 10 lines.  An eleventh
`insertLine(1, "a")` succeeds, and the `undo` right after it succeeds too but leaves a
9-line document, which is not the 10-line content of before the eleventh insert. -/
theorem undo_after_eleventh_edit :
    (run (openFile [] empty) tenInserts).map (fun e10 =>
      (e10.undoStack.length, e10.content.length,
        (exec e10 (.insertLine 1 lineA)).map (fun r =>
          (r.1, (undo r.2).1, (undo r.2).2.content.length,
            decide ((undo r.2).2.content = e10.content)))))
      = some (10, 10, some (.done, .done, 9, false)) := by
  rfl

/-- C2: on every state with a non-empty undo stack, `undo` succeeds and the `redo` after it
succeeds and gives back the state of before the `undo`, the Document included; and after
every successful snapshot-taking command (from any state, at any stack depth) the undo stack
is non-empty, so that command, `undo`, `redo` ends on the content the command produced. -/
theorem undo_then_redo_restores :
    (∀ e : TextEditor, e.undoStack ≠ [] →
      (undo e).1 = .done ∧ (redo (undo e).2).1 = .done ∧
        (redo (undo e).2).2.content = e.content) ∧
    (∀ (e e1 : TextEditor) (c : Command) (st : Status), c.isEdit = true →
      exec e c = some (st, e1) → st.isFailure = false →
      (undo e1).1 = .done ∧ (redo (undo e1).2).1 = .done ∧
        (redo (undo e1).2).2.content = e1.content) := by
  have key : ∀ e : TextEditor, e.undoStack ≠ [] →
      (undo e).1 = .done ∧ (redo (undo e).2).1 = .done ∧
        (redo (undo e).2).2.content = e.content := by
    intro e h
    obtain ⟨h1, h2⟩ := redo_undo_eq e h
    exact ⟨h1, by rw [h2], by rw [h2]⟩
  refine ⟨key, ?_⟩
  intro e e1 c st hc h hst
  apply key
  rcases exec_edit_history e e1 c st hc h with ⟨hf, _⟩ | ⟨_, hu, _⟩
  · rw [hst] at hf; cases hf
  · rw [hu]; exact saveStateForUndo_undoStack_ne_nil e

/-- Witness for C2: `insertLine(1, "a")` on the empty editor, then `undo`, then `redo`. -/
theorem undo_then_redo_restores_witness :
    Command.isEdit (.insertLine 1 lineA) = true ∧
    exec empty (.insertLine 1 lineA) = some (.done, ⟨[lineA], [[]], [], ⟨0, 1⟩⟩) ∧
    Status.isFailure .done = false ∧
    (undo ⟨[lineA], [[]], [], ⟨0, 1⟩⟩).1 = .done ∧
    (redo (undo ⟨[lineA], [[]], [], ⟨0, 1⟩⟩).2).1 = .done ∧
    (redo (undo ⟨[lineA], [[]], [], ⟨0, 1⟩⟩).2).2.content = [lineA] :=
  ⟨rfl, by decide, rfl,
    undo_then_redo_restores.2 empty ⟨[lineA], [[]], [], ⟨0, 1⟩⟩ (.insertLine 1 lineA) .done
      rfl (by decide) rfl⟩

/-- C3: from an editor whose two history stacks are empty, every state reached by any finite
sequence of commands (edits, `moveCursor`, `undo`, `redo`) has at most 10 snapshots on the
undo stack. -/
theorem undoStack_length_le_ten (e0 e : TextEditor) (cmds : List Command)
    (hu : e0.undoStack = []) (hr : e0.redoStack = []) (h : run e0 cmds = some e) :
    e.undoStack.length ≤ 10 := by
  have h0 : historyBounded e0 := by simp [historyBounded, hu, hr]
  have h1 := run_historyBounded cmds e0 e h h0
  unfold historyBounded at h1
  omega

/-- Witness for C3: two inserts, an `undo` and a `redo` from the empty editor. -/
theorem undoStack_length_le_ten_witness :
    empty.undoStack = [] ∧ empty.redoStack = [] ∧
    run empty [.insertLine 1 lineA, .insertLine 1 lineA, .undo, .redo]
      = some ⟨[lineA, lineA], [[lineA], []], [], ⟨0, 1⟩⟩ ∧
    (⟨[lineA, lineA], [[lineA], []], [], ⟨0, 1⟩⟩ : TextEditor).undoStack.length ≤ 10 :=
  ⟨rfl, rfl, by decide,
    undoStack_length_le_ten empty ⟨[lineA, lineA], [[lineA], []], [], ⟨0, 1⟩⟩
      [.insertLine 1 lineA, .insertLine 1 lineA, .undo, .redo] rfl rfl (by decide)⟩

/-- C4 (evaluation at the failing input): on the state reached by `openFile` on an empty
file and ten `insertLine(1, "a")`, whose undo stack holds 10 snapshots, `saveStateForUndo`
leaves the undo stack exactly as it was: the top is still the 9-line snapshot and not the
current 10-line content, and the oldest snapshot (the empty document) is still at the
bottom. -/
theorem saveStateForUndo_on_full_stack :
    (run (openFile [] empty) tenInserts).map (fun e10 =>
      (e10.undoStack.length, e10.content.length,
        decide ((saveStateForUndo e10).undoStack = e10.undoStack),
        (saveStateForUndo e10).undoStack.head?.map List.length,
        (saveStateForUndo e10).undoStack.getLast?))
      = some (10, 10, true, some 9, some []) := by
  rfl

/-- C5: after every successful snapshot-taking command, from any state, the redo stack is
empty, and `redo` right after it takes its refusing branch and returns the state unchanged
(Document, cursor and both stacks). -/
theorem redo_after_edit_refused (e e1 : TextEditor) (c : Command) (st : Status)
    (hc : c.isEdit = true) (h : exec e c = some (st, e1)) (hst : st.isFailure = false) :
    e1.redoStack = [] ∧ redo e1 = (.nothingToRedo, e1) := by
  rcases exec_edit_history e e1 c st hc h with ⟨hf, _⟩ | ⟨_, _, hr⟩
  · rw [hst] at hf; cases hf
  · refine ⟨hr, ?_⟩
    simp [redo, hr]

/-- Witness for C5: `insertLine(1, "a")` on a state with a non-empty redo stack. -/
theorem redo_after_edit_refused_witness :
    Command.isEdit (.insertLine 1 lineA) = true ∧
    exec ⟨[], [], [[lineA]], ⟨0, 0⟩⟩ (.insertLine 1 lineA)
      = some (.done, ⟨[lineA], [[]], [], ⟨0, 1⟩⟩) ∧
    Status.isFailure .done = false ∧
    (⟨[lineA], [[]], [], ⟨0, 1⟩⟩ : TextEditor).redoStack = [] ∧
    redo ⟨[lineA], [[]], [], ⟨0, 1⟩⟩ = (.nothingToRedo, ⟨[lineA], [[]], [], ⟨0, 1⟩⟩) :=
  ⟨rfl, by decide, rfl,
    redo_after_edit_refused ⟨[], [], [[lineA]], ⟨0, 0⟩⟩ ⟨[lineA], [[]], [], ⟨0, 1⟩⟩
      (.insertLine 1 lineA) .done rfl (by decide) rfl⟩

/-! ## Refused commands -/

/-- C6: each operation takes its refusing branch exactly under its stated condition, and a
refused operation returns the state it was given (Document, cursor and both stacks):
`insertLine(p, _)` iff `p < 1` or `p > len + 1`; `deleteLine(p)` iff `p < 1` or `p > len`;
`deleteCharAtCursor` iff the cursor is `{0, 0}`; `searchAndReplace(s, r)` iff `s` is empty;
`undo` iff the undo stack is empty; `redo` iff the redo stack is empty. -/
theorem refusal_conditions (e : TextEditor) :
    (∀ (p : Int) (ft : FormattedText),
      ((insertLine p ft e).1.isFailure = true ↔ (p < 1 ∨ p > (e.content.length : Int) + 1)) ∧
      ((insertLine p ft e).1.isFailure = true → (insertLine p ft e).2 = e)) ∧
    (∀ p : Int,
      ((deleteLine p e).1.isFailure = true ↔ (p < 1 ∨ p > (e.content.length : Int))) ∧
      ((deleteLine p e).1.isFailure = true → (deleteLine p e).2 = e)) ∧
    (((∃ st e1, deleteCharAtCursor e = some (st, e1) ∧ st.isFailure = true) ↔
        e.cursorPosition = ⟨0, 0⟩) ∧
      (∀ st e1, deleteCharAtCursor e = some (st, e1) → st.isFailure = true → e1 = e)) ∧
    (∀ s r : List Char,
      ((∃ st e1, searchAndReplace s r e = some (st, e1) ∧ st.isFailure = true) ↔ s = []) ∧
      (∀ st e1, searchAndReplace s r e = some (st, e1) → st.isFailure = true → e1 = e)) ∧
    (((undo e).1.isFailure = true ↔ e.undoStack = []) ∧
      ((undo e).1.isFailure = true → (undo e).2 = e)) ∧
    (((redo e).1.isFailure = true ↔ e.redoStack = []) ∧
      ((redo e).1.isFailure = true → (redo e).2 = e)) := by
  have unchanged : ∀ (c : Command) (st : Status) (e1 : TextEditor), c.isEdit = true →
      exec e c = some (st, e1) → st.isFailure = true → e1 = e := by
    intro c st e1 hc h hst
    rcases exec_edit_history e e1 c st hc h with ⟨_, he⟩ | ⟨hf, _⟩
    · exact he
    · rw [hst] at hf; cases hf
  refine ⟨?_, ?_, ⟨?_, ?_⟩, ?_, ⟨?_, ?_⟩, ⟨?_, ?_⟩⟩
  · intro p ft
    refine ⟨?_, fun h => unchanged (.insertLine p ft) _ _ rfl rfl h⟩
    unfold insertLine
    split
    · rename_i hp; simp [Status.isFailure, hp]
    · rename_i hp; simp only [Status.isFailure]; exact ⟨fun h => (by cases h), fun h => absurd h hp⟩
  · intro p
    refine ⟨?_, fun h => unchanged (.deleteLine p) _ _ rfl rfl h⟩
    unfold deleteLine
    split
    · rename_i hp; simp [Status.isFailure, hp]
    · rename_i hp; simp only [Status.isFailure]; exact ⟨fun h => (by cases h), fun h => absurd h hp⟩
  · constructor
    · rintro ⟨st, e1, h, hst⟩
      simp only [deleteCharAtCursor] at h
      split at h
      · rename_i hc
        cases hcur : e.cursorPosition with
        | mk line column =>
          rw [hcur] at hc
          simp only at hc
          rw [hc.1, hc.2]
      · exfalso
        split at h
        · split at h
          · cases h
          · split at h
            · cases h
            · obtain ⟨rfl, _⟩ := Prod.mk.inj (Option.some.inj h); cases hst
        · split at h
          · split at h
            · obtain ⟨rfl, _⟩ := Prod.mk.inj (Option.some.inj h); cases hst
            · cases h
          · obtain ⟨rfl, _⟩ := Prod.mk.inj (Option.some.inj h); cases hst
    · intro hc
      refine ⟨.nothingToDelete, e, ?_, rfl⟩
      simp [deleteCharAtCursor, hc]
  · intro st e1 h hst
    exact unchanged .deleteCharAtCursor st e1 rfl h hst
  · intro s r
    refine ⟨⟨?_, ?_⟩, fun st e1 h hst => unchanged (.searchAndReplace s r) st e1 rfl h hst⟩
    · rintro ⟨st, e1, h, hst⟩
      simp only [searchAndReplace] at h
      split at h
      · rename_i hs
        simpa using hs
      · exfalso
        split at h
        · cases h
        · cases h
          revert hst
          split <;> intro hst <;> cases hst
    · intro hs
      exact ⟨.emptySearchText, e, by simp [searchAndReplace, hs], rfl⟩
  · unfold undo
    split
    · rename_i hs; simp [Status.isFailure, hs]
    · rename_i top rest hs; simp [Status.isFailure, hs]
  · intro h
    unfold undo at h ⊢
    split
    · rfl
    · rename_i top rest hs
      rw [hs] at h
      cases h
  · unfold redo
    split
    · rename_i hs; simp [Status.isFailure, hs]
    · rename_i top rest hs; simp [Status.isFailure, hs]
  · intro h
    unfold redo at h ⊢
    split
    · rfl
    · rename_i top rest hs
      rw [hs] at h
      cases h

/-! ## Line edits -/

theorem insertLine_of_valid (e : TextEditor) (p : Int) (ft : FormattedText)
    (h1 : 1 ≤ p) (h2 : p ≤ (e.content.length : Int) + 1) :
    insertLine p ft e = (.done, clearRedoHistory
      { saveStateForUndo e with
        content := e.content.insertIdx (p - 1).toNat ft
        cursorPosition := ⟨(p - 1).toNat, ft.text.length⟩ }) := by
  have h : ¬ (p < 1 ∨ p > (e.content.length : Int) + 1) := by omega
  simp only [insertLine, h, if_false]
  rfl

theorem deleteLine_of_valid (e : TextEditor) (p : Int)
    (h1 : 1 ≤ p) (h2 : p ≤ (e.content.length : Int)) :
    deleteLine p e = (.done, clearRedoHistory
      { saveStateForUndo e with
        content := e.content.eraseIdx (p - 1).toNat
        cursorPosition := ⟨(max 0 (p - 2)).toNat, 0⟩ }) := by
  have h : ¬ (p < 1 ∨ p > (e.content.length : Int)) := by omega
  simp only [deleteLine, h, if_false]
  rfl

/-- C8: for every state, every line value and every position `p` with
`1 ≤ p ≤ len(Document) + 1`, `insertLine(p, line)` succeeds, the `deleteLine(p)` right after
it succeeds, and the Document is then the one of before the insert. -/
theorem insertLine_then_deleteLine (e : TextEditor) (p : Int) (ft : FormattedText)
    (h1 : 1 ≤ p) (h2 : p ≤ (e.content.length : Int) + 1) :
    (insertLine p ft e).1 = .done ∧
    (deleteLine p (insertLine p ft e).2).1 = .done ∧
    (deleteLine p (insertLine p ft e).2).2.content = e.content := by
  have hn : (p - 1).toNat ≤ e.content.length := by omega
  rw [insertLine_of_valid e p ft h1 h2]
  refine ⟨rfl, ?_⟩
  have hlen : ((e.content.insertIdx (p - 1).toNat ft).length : Int) = e.content.length + 1 := by
    rw [List.length_insertIdx _ _ hn]; simp
  rw [deleteLine_of_valid _ p h1 (by simp only [clearRedoHistory_content]; omega)]
  refine ⟨rfl, ?_⟩
  simp [List.eraseIdx_insertIdx]

/-- Witness for C8: `insertLine(2, "a")` then `deleteLine(2)` on a one-line document. -/
theorem insertLine_then_deleteLine_witness :
    (1 : Int) ≤ 2 ∧ (2 : Int) ≤ ((⟨[lineA], [], [], ⟨0, 0⟩⟩ : TextEditor).content.length : Int) + 1 ∧
    (insertLine 2 lineA ⟨[lineA], [], [], ⟨0, 0⟩⟩).1 = .done ∧
    (deleteLine 2 (insertLine 2 lineA ⟨[lineA], [], [], ⟨0, 0⟩⟩).2).1 = .done ∧
    (deleteLine 2 (insertLine 2 lineA ⟨[lineA], [], [], ⟨0, 0⟩⟩).2).2.content = [lineA] :=
  ⟨by decide, by decide,
    insertLine_then_deleteLine ⟨[lineA], [], [], ⟨0, 0⟩⟩ 2 lineA (by decide) (by decide)⟩

/-! ## Search and replace -/

theorem findFirst_isSome_iff (s t : List Char) : (findFirst s t).isSome = true ↔ s <:+: t := by
  induction t with
  | nil =>
      cases s with
      | nil => simp [findFirst]
      | cons a as => simp [findFirst]
  | cons c cs ih =>
      rw [List.infix_cons_iff, ← ih]
      by_cases hp : s.isPrefixOf (c :: cs) = true
      · simp only [findFirst, hp, if_true, Option.isSome_some, true_iff]
        left
        exact List.isPrefixOf_iff_prefix.mp hp
      · have hp1 : ¬ s <+: c :: cs := fun h => hp (List.isPrefixOf_iff_prefix.mpr h)
        simp [findFirst, hp, hp1]

theorem findFirst_bound (s t : List Char) (i : Nat) (h : findFirst s t = some i) :
    i + s.length ≤ t.length := by
  induction t generalizing i with
  | nil =>
      cases s with
      | nil => simp [findFirst] at h; simp [h]
      | cons a as => simp [findFirst] at h
  | cons c cs ih =>
      by_cases hp : s.isPrefixOf (c :: cs) = true
      · simp only [findFirst, hp, if_true, Option.some.injEq] at h
        have := (List.isPrefixOf_iff_prefix.mp hp).length_le
        omega
      · have h1 : (findFirst s cs).map (· + 1) = some i := by simpa [findFirst, hp] using h
        obtain ⟨k, hk, rfl⟩ := Option.map_eq_some'.mp h1
        have := ih k hk
        simp only [List.length_cons]
        omega

/-- Skipping `k` characters in the reference scan is dropping them. -/
theorem replaceAllRef_skip (s r : List Char) (k : Nat) (t : List Char) :
    replaceAllRef s r k t = replaceAllRef s r 0 (t.drop k) := by
  induction k generalizing t with
  | zero => simp
  | succ k ih =>
      cases t with
      | nil => simp [replaceAllRef]
      | cons c cs => simp only [replaceAllRef, List.drop_succ_cons]; exact ih cs

/-- The reference scan leaves a text without occurrence as it is. -/
theorem replaceAllRef_of_findFirst_none (s r t : List Char) (h : findFirst s t = none) :
    replaceAllRef s r 0 t = t := by
  induction t with
  | nil => simp [replaceAllRef]
  | cons c cs ih =>
      by_cases hp : s.isPrefixOf (c :: cs) = true
      · simp [findFirst, hp] at h
      · simp only [findFirst, hp, Option.map_eq_none'] at h
        simp only [replaceAllRef, hp]
        rw [ih (by simpa using h)]
        rfl

/-- The reference scan, unfolded at the first occurrence. -/
theorem replaceAllRef_of_findFirst_some (s r t : List Char) (i : Nat) (hs : s ≠ [])
    (h : findFirst s t = some i) :
    replaceAllRef s r 0 t = t.take i ++ r ++ replaceAllRef s r 0 (t.drop (i + s.length)) := by
  induction t generalizing i with
  | nil =>
      cases s with
      | nil => exact absurd rfl hs
      | cons a as => simp [findFirst] at h
  | cons c cs ih =>
      have hlen : 0 < s.length := List.length_pos.mpr hs
      by_cases hp : s.isPrefixOf (c :: cs) = true
      · simp only [findFirst, hp, if_true, Option.some.injEq] at h
        subst h
        simp only [replaceAllRef, hp, if_true, List.take_zero, List.nil_append, Nat.zero_add]
        rw [replaceAllRef_skip]
        obtain ⟨n, hn⟩ : ∃ n, s.length = n + 1 := ⟨s.length - 1, by omega⟩
        rw [hn]
        simp
      · have h1 : (findFirst s cs).map (· + 1) = some i := by simpa [findFirst, hp] using h
        obtain ⟨k, hk, rfl⟩ := Option.map_eq_some'.mp h1
        simp only [replaceAllRef, hp]
        rw [ih k hk]
        have : k + 1 + s.length = (k + s.length) + 1 := by omega
        rw [this]
        simp

/-- The `while` loop of `searchAndReplace` computes the reference scan.  The text is split
into the part already rewritten, `done`, and the original text still to scan, `rest`; the
loop variable `pos` is the first occurrence in `rest`, counted from the start of the text. -/
theorem replaceLoop_eq (s r : List Char) (hs : s ≠ []) (fuel : Nat) (done rest : List Char)
    (flag : Bool) (hfuel : rest.length ≤ fuel) :
    replaceLoop s r fuel (done ++ rest) ((findFirst s rest).map (· + done.length)) flag
      = some (done ++ replaceAllRef s r 0 rest, flag || (findFirst s rest).isSome) := by
  induction fuel generalizing done rest flag with
  | zero =>
      cases hf : findFirst s rest with
      | none =>
          simp [replaceLoop, replaceAllRef_of_findFirst_none s r rest hf]
      | some i =>
          have := findFirst_bound s rest i hf
          have := List.length_pos.mpr hs
          omega
  | succ fuel ih =>
      cases hf : findFirst s rest with
      | none =>
          simp [replaceLoop, replaceAllRef_of_findFirst_none s r rest hf]
      | some i =>
          have hb := findFirst_bound s rest i hf
          have hpos := List.length_pos.mpr hs
          have htext : strReplace (done ++ rest) (i + done.length) s.length r
              = (done ++ rest.take i ++ r) ++ rest.drop (i + s.length) := by
            simp only [strReplace, List.take_append_eq_append_take,
              List.drop_append_eq_append_drop]
            have h1 : i + done.length - done.length = i := by omega
            have h2 : i + done.length + s.length - done.length = i + s.length := by omega
            have h3 : List.take (i + done.length) done = done :=
              List.take_of_length_le (by omega)
            have h4 : List.drop (i + done.length + s.length) done = [] :=
              List.drop_of_length_le (by omega)
            rw [h1, h2, h3, h4]
            simp
          have hlen : (done ++ rest.take i ++ r).length = i + done.length + r.length := by
            simp only [List.length_append, List.length_take]
            have : min i rest.length = i := by omega
            omega
          have hfind : find ((done ++ rest.take i ++ r) ++ rest.drop (i + s.length)) s
                (i + done.length + r.length)
              = (findFirst s (rest.drop (i + s.length))).map
                  (· + (done ++ rest.take i ++ r).length) := by
            unfold find
            rw [← hlen]
            have hgt : ¬ ((done ++ rest.take i ++ r).length
                > ((done ++ rest.take i ++ r) ++ rest.drop (i + s.length)).length) := by
              simp only [List.length_append]
              omega
            rw [if_neg hgt, List.drop_left]
          simp only [Option.map_some', replaceLoop]
          rw [htext, hfind, ih (done ++ rest.take i ++ r) (rest.drop (i + s.length)) true
            (by simp only [List.length_drop]; omega)]
          rw [replaceAllRef_of_findFirst_some s r rest i hs hf]
          simp

theorem replaceInLine_eq (s r : List Char) (hs : s ≠ []) (line : FormattedText) (flag : Bool) :
    replaceInLine s r line flag
      = some ({ line with text := replaceAllRef s r 0 line.text },
          flag || (findFirst s line.text).isSome) := by
  have h := replaceLoop_eq s r hs line.text.length [] line.text flag (Nat.le_refl _)
  have hfind : find line.text s 0 = (findFirst s line.text).map (· + ([] : List Char).length) := by
    simp [find]
  simp only [List.nil_append] at h
  simp only [replaceInLine, hfind, h, Option.map_some']

theorem replaceInLines_eq (s r : List Char) (hs : s ≠ []) (lines : List FormattedText)
    (flag : Bool) :
    replaceInLines s r lines flag
      = some (lines.map (fun l => { l with text := replaceAllRef s r 0 l.text }),
          flag || lines.any (fun l => (findFirst s l.text).isSome)) := by
  induction lines generalizing flag with
  | nil => simp [replaceInLines]
  | cons line rest ih =>
      simp only [replaceInLines, replaceInLine_eq s r hs, ih, List.map_cons, List.any_cons,
        Bool.or_assoc]

/-- The function `searchAndReplace` with a non-empty search text, in closed form. -/
theorem searchAndReplace_eq (e : TextEditor) (s r : List Char) (hs : s ≠ []) :
    searchAndReplace s r e
      = some (if e.content.any (fun l => (findFirst s l.text).isSome) then .allReplaced
              else .noInstances,
          clearRedoHistory { saveStateForUndo e with
            content := e.content.map (fun l => { l with text := replaceAllRef s r 0 l.text }) }) := by
  have hne : s.isEmpty = false := by
    cases s with
    | nil => exact absurd rfl hs
    | cons a as => rfl
  simp only [searchAndReplace, hne, saveStateForUndo_content, replaceInLines_eq s r hs,
    Bool.false_or]
  rfl

/-- C7: for every state, every non-empty search text `s` and every replacement `r`,
`searchAndReplace(s, r)` returns, and the Document it leaves has each line's text replaced by
the reference left-to-right non-overlapping replace-all of that line's original text, with
the lines, their order and their style flags kept; it reports "replaced" iff some line
contained `s` and "no instances" otherwise; a Document in which no line contains `s` is left
identical. -/
theorem searchAndReplace_replaces_all (e : TextEditor) (s r : List Char) (hs : s ≠ []) :
    ∃ st e1, searchAndReplace s r e = some (st, e1) ∧
      e1.content = e.content.map (fun l => { l with text := replaceAllRef s r 0 l.text }) ∧
      e1.content.length = e.content.length ∧
      (st = .allReplaced ↔ ∃ l ∈ e.content, s <:+: l.text) ∧
      (st = .noInstances ↔ ¬ ∃ l ∈ e.content, s <:+: l.text) ∧
      ((∀ l ∈ e.content, ¬ s <:+: l.text) → e1.content = e.content) := by
  have hany : e.content.any (fun l => (findFirst s l.text).isSome) = true
      ↔ ∃ l ∈ e.content, s <:+: l.text := by
    simp only [List.any_eq_true, findFirst_isSome_iff]
  refine ⟨_, _, searchAndReplace_eq e s r hs, rfl, by simp, ?_, ?_, ?_⟩
  · rw [← hany]
    split <;> simp_all
  · rw [← hany]
    split <;> simp_all
  · intro hno
    simp only [clearRedoHistory_content]
    conv_rhs => rw [← List.map_id e.content]
    apply List.map_congr_left
    intro l hl
    have hnone : findFirst s l.text = none := by
      have := (findFirst_isSome_iff s l.text).not.mpr (hno l hl)
      simpa using this
    rw [replaceAllRef_of_findFirst_none s r l.text hnone]
    rfl

/-- Witness for C7: `["abc", "abcabc"]` with `replace("abc", "X")` gives `["X", "XX"]`,
reports "replaced" and adds exactly one undo entry, the Document of before. -/
theorem searchAndReplace_replaces_all_witness :
    "abc".data ≠ [] ∧
    searchAndReplace "abc".data "X".data ⟨abcLines, [], [], ⟨0, 0⟩⟩
      = some (.allReplaced,
          ⟨[⟨"X".data, false, false, false⟩, ⟨"XX".data, false, false, false⟩], [abcLines], [],
            ⟨0, 0⟩⟩) ∧
    ∃ st e1, searchAndReplace "abc".data "X".data ⟨abcLines, [], [], ⟨0, 0⟩⟩ = some (st, e1) ∧
      e1.content
        = abcLines.map (fun l => { l with text := replaceAllRef "abc".data "X".data 0 l.text }) ∧
      e1.content.length = abcLines.length ∧
      (st = .allReplaced ↔ ∃ l ∈ abcLines, "abc".data <:+: l.text) ∧
      (st = .noInstances ↔ ¬ ∃ l ∈ abcLines, "abc".data <:+: l.text) ∧
      ((∀ l ∈ abcLines, ¬ "abc".data <:+: l.text) → e1.content = abcLines) :=
  ⟨by decide, by decide,
    searchAndReplace_replaces_all ⟨abcLines, [], [], ⟨0, 0⟩⟩ "abc".data "X".data (by decide)⟩

/-! ## The cursor invariant -/

theorem cursorInRange_iff (e : TextEditor) :
    cursorInRange e = true ↔
      ∃ l, e.content[e.cursorPosition.line]? = some l ∧ e.cursorPosition.column ≤ l.text.length := by
  unfold cursorInRange
  split
  · rename_i l hl
    simp [hl]
  · rename_i hl
    simp [hl]

theorem lt_length_of_getElem? {α : Type} (xs : List α) (i : Nat) (x : α) (h : xs[i]? = some x) :
    i < xs.length := by
  obtain ⟨hlt, _⟩ := List.getElem?_eq_some.mp h
  exact hlt

theorem exists_getElem?_of_lt {α : Type} (xs : List α) (i : Nat) (h : i < xs.length) :
    ∃ x, xs[i]? = some x :=
  ⟨_, List.getElem?_eq_getElem h⟩

/-- The function `insertCharAtCursor` in closed form, on a cursor that is in range. -/
theorem insertCharAtCursor_of_inRange (e : TextEditor) (c : Char) (l : FormattedText)
    (hl : e.content[e.cursorPosition.line]? = some l)
    (hc : e.cursorPosition.column ≤ l.text.length) :
    insertCharAtCursor c e = some (clearRedoHistory { saveStateForUndo e with
      content := e.content.set e.cursorPosition.line
        { l with text := l.text.insertIdx e.cursorPosition.column c }
      cursorPosition := ⟨e.cursorPosition.line, e.cursorPosition.column + 1⟩ }) := by
  have hc1 : ¬ (e.cursorPosition.column > l.text.length) := by omega
  simp only [insertCharAtCursor, saveStateForUndo_content, saveStateForUndo_cursorPosition, hl,
    hc1, if_false]

/-- The function `deleteCharAtCursor` in closed form when the cursor is in range and not at column 0. -/
theorem deleteCharAtCursor_of_column_pos (e : TextEditor) (l : FormattedText)
    (hl : e.content[e.cursorPosition.line]? = some l)
    (hc : e.cursorPosition.column ≤ l.text.length) (hpos : 0 < e.cursorPosition.column) :
    deleteCharAtCursor e = some (.done, clearRedoHistory { saveStateForUndo e with
      content := e.content.set e.cursorPosition.line
        { l with text := l.text.eraseIdx (e.cursorPosition.column - 1) }
      cursorPosition := ⟨e.cursorPosition.line, e.cursorPosition.column - 1⟩ }) := by
  have h0 : ¬ (e.cursorPosition.column = 0 ∧ e.cursorPosition.line = 0) := by omega
  have h1 : e.cursorPosition.column > 0 := hpos
  have h2 : ¬ (e.cursorPosition.column - 1 > l.text.length) := by omega
  simp only [deleteCharAtCursor, saveStateForUndo_content, saveStateForUndo_cursorPosition, hl,
    h0, h1, h2, if_false, if_true]

/-- The function `deleteCharAtCursor` in closed form when the cursor is at column 0 of a line that has a
predecessor. -/
theorem deleteCharAtCursor_of_column_zero (e : TextEditor) (prev l : FormattedText)
    (hprev : e.content[e.cursorPosition.line - 1]? = some prev)
    (hl : e.content[e.cursorPosition.line]? = some l)
    (hc : e.cursorPosition.column = 0) (hline : 0 < e.cursorPosition.line) :
    deleteCharAtCursor e = some (.done, clearRedoHistory { saveStateForUndo e with
      content := (e.content.set (e.cursorPosition.line - 1)
        { prev with text := prev.text ++ l.text }).eraseIdx e.cursorPosition.line
      cursorPosition := ⟨e.cursorPosition.line - 1, prev.text.length⟩ }) := by
  have h0 : ¬ (e.cursorPosition.column = 0 ∧ e.cursorPosition.line = 0) := by omega
  have h1 : ¬ (e.cursorPosition.column > 0) := by omega
  have h2 : e.cursorPosition.line > 0 := hline
  simp only [deleteCharAtCursor, saveStateForUndo_content, saveStateForUndo_cursorPosition, hl,
    hprev, h0, h1, h2, if_false, if_true]

theorem insertLine_cursorInRange (e : TextEditor) (p : Int) (ft : FormattedText)
    (h : (insertLine p ft e).1 = .done) : cursorInRange (insertLine p ft e).2 = true := by
  by_cases hp : p < 1 ∨ p > (e.content.length : Int) + 1
  · simp [insertLine, hp] at h
  · have hn : (p - 1).toNat ≤ e.content.length := by omega
    rw [insertLine_of_valid e p ft (by omega) (by omega), cursorInRange_iff]
    refine ⟨ft, ?_, Nat.le_refl _⟩
    simp only [clearRedoHistory_content, clearRedoHistory_cursorPosition]
    have hlt : (p - 1).toNat < (e.content.insertIdx (p - 1).toNat ft).length := by
      rw [List.length_insertIdx _ _ hn]; omega
    rw [List.getElem?_eq_getElem hlt, List.getElem_insertIdx_self _ _ _ hn]

theorem deleteLine_cursorInRange (e : TextEditor) (p : Int)
    (h : (deleteLine p e).1 = .done) (hne : (deleteLine p e).2.content ≠ []) :
    cursorInRange (deleteLine p e).2 = true := by
  by_cases hp : p < 1 ∨ p > (e.content.length : Int)
  · simp [deleteLine, hp] at h
  · rw [deleteLine_of_valid e p (by omega) (by omega)] at hne ⊢
    rw [cursorInRange_iff]
    simp only [clearRedoHistory_content, clearRedoHistory_cursorPosition] at hne ⊢
    have hlen : (e.content.eraseIdx (p - 1).toNat).length = e.content.length - 1 :=
      List.length_eraseIdx_of_lt (by omega)
    have hpos : 0 < (e.content.eraseIdx (p - 1).toNat).length := List.length_pos.mpr hne
    obtain ⟨l, hl⟩ := exists_getElem?_of_lt (e.content.eraseIdx (p - 1).toNat)
      (max 0 (p - 2)).toNat (by omega)
    exact ⟨l, hl, Nat.zero_le _⟩

theorem insertCharAtCursor_cursorInRange (e : TextEditor) (c : Char)
    (h : cursorInRange e = true) :
    ∃ e1, insertCharAtCursor c e = some e1 ∧ cursorInRange e1 = true := by
  obtain ⟨l, hl, hc⟩ := (cursorInRange_iff e).mp h
  refine ⟨_, insertCharAtCursor_of_inRange e c l hl hc, ?_⟩
  rw [cursorInRange_iff]
  have hlt := lt_length_of_getElem? _ _ _ hl
  refine ⟨{ l with text := l.text.insertIdx e.cursorPosition.column c }, ?_, ?_⟩
  · simp only [clearRedoHistory_content, clearRedoHistory_cursorPosition]
    exact List.getElem?_set_self hlt
  · simp only [clearRedoHistory_cursorPosition]
    rw [List.length_insertIdx _ _ hc]
    omega

theorem deleteCharAtCursor_cursorInRange (e : TextEditor) (h : cursorInRange e = true) :
    ∃ st e1, deleteCharAtCursor e = some (st, e1) ∧ cursorInRange e1 = true := by
  obtain ⟨l, hl, hc⟩ := (cursorInRange_iff e).mp h
  have hlt := lt_length_of_getElem? _ _ _ hl
  by_cases hcol : 0 < e.cursorPosition.column
  · refine ⟨_, _, deleteCharAtCursor_of_column_pos e l hl hc hcol, ?_⟩
    rw [cursorInRange_iff]
    refine ⟨{ l with text := l.text.eraseIdx (e.cursorPosition.column - 1) }, ?_, ?_⟩
    · simp only [clearRedoHistory_content, clearRedoHistory_cursorPosition]
      exact List.getElem?_set_self hlt
    · simp only [clearRedoHistory_cursorPosition]
      rw [List.length_eraseIdx_of_lt (by omega)]
      omega
  · by_cases hline : 0 < e.cursorPosition.line
    · obtain ⟨prev, hprev⟩ := exists_getElem?_of_lt e.content (e.cursorPosition.line - 1)
        (by omega)
      refine ⟨_, _, deleteCharAtCursor_of_column_zero e prev l hprev hl (by omega) hline, ?_⟩
      rw [cursorInRange_iff]
      refine ⟨{ prev with text := prev.text ++ l.text }, ?_, ?_⟩
      · simp only [clearRedoHistory_content, clearRedoHistory_cursorPosition]
        rw [List.getElem?_eraseIdx_of_lt _ _ _ (by omega)]
        exact List.getElem?_set_self (by omega)
      · simp
    · refine ⟨.nothingToDelete, e, ?_, h⟩
      have h0 : e.cursorPosition.column = 0 ∧ e.cursorPosition.line = 0 := by omega
      simp [deleteCharAtCursor, h0]

theorem ltSizeMinusOne_iff (line size : Nat) (h : 0 < size) :
    ltSizeMinusOne line size = true ↔ line + 1 < size := by
  have h0 : size ≠ 0 := by omega
  simp only [ltSizeMinusOne, h0, if_false, decide_eq_true_eq]
  omega

theorem moveCursor_cursorInRange (e : TextEditor) (direction : Char)
    (h : cursorInRange e = true) :
    ∃ e1, moveCursor direction e = some e1 ∧ cursorInRange e1 = true := by
  obtain ⟨l, hl, hc⟩ := (cursorInRange_iff e).mp h
  have hlt := lt_length_of_getElem? _ _ _ hl
  obtain ⟨up, hup⟩ := exists_getElem?_of_lt e.content (e.cursorPosition.line - 1) (by omega)
  have hsize := ltSizeMinusOne_iff e.cursorPosition.line e.content.length (by omega)
  by_cases hw : direction = 'w'
  · simp only [moveCursor, hw, if_true, hup]
    exact ⟨_, rfl, (cursorInRange_iff _).mpr ⟨up, hup, Nat.min_le_left _ _⟩⟩
  by_cases ha : direction = 'a'
  · simp only [moveCursor, hw, ha, if_true, if_false]
    by_cases hcol : e.cursorPosition.column > 0
    · simp only [hcol, if_true]
      refine ⟨_, rfl, (cursorInRange_iff _).mpr ⟨l, hl, ?_⟩⟩
      show e.cursorPosition.column - 1 ≤ l.text.length
      omega
    · by_cases hline : e.cursorPosition.line > 0
      · simp only [hcol, hline, if_true, if_false, hup]
        exact ⟨_, rfl, (cursorInRange_iff _).mpr ⟨up, hup, Nat.le_refl _⟩⟩
      · simp only [hcol, hline, if_false]
        exact ⟨e, rfl, h⟩
  by_cases hs : direction = 's'
  · simp only [moveCursor, hw, ha, hs, if_true, if_false]
    by_cases hdown : ltSizeMinusOne e.cursorPosition.line e.content.length = true
    · obtain ⟨down, hdn⟩ := exists_getElem?_of_lt e.content (e.cursorPosition.line + 1)
        (hsize.mp hdown)
      simp only [hdown, if_true, hdn]
      exact ⟨_, rfl, (cursorInRange_iff _).mpr ⟨down, hdn, Nat.min_le_right _ _⟩⟩
    · simp only [hdown, if_false]
      exact ⟨e, rfl, h⟩
  by_cases hd : direction = 'd'
  · simp only [moveCursor, hw, ha, hs, hd, if_true, if_false, hl]
    by_cases hcol : e.cursorPosition.column < l.text.length
    · simp only [hcol, if_true]
      refine ⟨_, rfl, (cursorInRange_iff _).mpr ⟨l, hl, ?_⟩⟩
      show e.cursorPosition.column + 1 ≤ l.text.length
      omega
    · by_cases hdown : ltSizeMinusOne e.cursorPosition.line e.content.length = true
      · obtain ⟨down, hdn⟩ := exists_getElem?_of_lt e.content (e.cursorPosition.line + 1)
          (hsize.mp hdown)
        simp only [hcol, hdown, if_true, if_false]
        exact ⟨_, rfl, (cursorInRange_iff _).mpr ⟨down, hdn, Nat.zero_le _⟩⟩
      · simp only [hcol, hdown, if_false]
        exact ⟨e, rfl, h⟩
  · simp only [moveCursor, hw, ha, hs, hd, if_false]
    exact ⟨e, rfl, h⟩

/-- C9: the cursor invariant (the cursor line exists and the column is at most the length of
its text) holds after every successful `insertLine`, holds after every successful
`deleteLine` that leaves a non-empty Document, and, from a state that satisfies it,
`insertCharAtCursor`, `deleteCharAtCursor` and `moveCursor` in any direction all return a
state that satisfies it again. -/
theorem cursor_invariant_preserved (e : TextEditor) :
    (∀ (p : Int) (ft : FormattedText), (insertLine p ft e).1 = .done →
      cursorInRange (insertLine p ft e).2 = true) ∧
    (∀ p : Int, (deleteLine p e).1 = .done → (deleteLine p e).2.content ≠ [] →
      cursorInRange (deleteLine p e).2 = true) ∧
    (cursorInRange e = true →
      (∀ c : Char, ∃ e1, insertCharAtCursor c e = some e1 ∧ cursorInRange e1 = true) ∧
      (∃ st e1, deleteCharAtCursor e = some (st, e1) ∧ cursorInRange e1 = true) ∧
      (∀ direction : Char, ∃ e1, moveCursor direction e = some e1 ∧ cursorInRange e1 = true)) :=
  ⟨fun p ft h => insertLine_cursorInRange e p ft h,
    fun p h hne => deleteLine_cursorInRange e p h hne,
    fun h => ⟨fun c => insertCharAtCursor_cursorInRange e c h,
      deleteCharAtCursor_cursorInRange e h,
      fun direction => moveCursor_cursorInRange e direction h⟩⟩

/-- Witness for C9: the two-line document `["abc", "abcabc"]` with the cursor at the start of
its second line. -/
theorem cursor_invariant_preserved_witness :
    cursorInRange ⟨abcLines, [], [], ⟨1, 0⟩⟩ = true ∧
    (∀ c : Char, ∃ e1,
      insertCharAtCursor c ⟨abcLines, [], [], ⟨1, 0⟩⟩ = some e1 ∧ cursorInRange e1 = true) ∧
    (∃ st e1,
      deleteCharAtCursor ⟨abcLines, [], [], ⟨1, 0⟩⟩ = some (st, e1) ∧ cursorInRange e1 = true) ∧
    (∀ direction : Char, ∃ e1,
      moveCursor direction ⟨abcLines, [], [], ⟨1, 0⟩⟩ = some e1 ∧ cursorInRange e1 = true) :=
  ⟨by decide, (cursor_invariant_preserved ⟨abcLines, [], [], ⟨1, 0⟩⟩).2.2 (by decide)⟩

/-- The function `searchAndReplace` never assigns the cursor. -/
theorem searchAndReplace_cursorPosition (e e1 : TextEditor) (s r : List Char) (st : Status)
    (h : searchAndReplace s r e = some (st, e1)) : e1.cursorPosition = e.cursorPosition := by
  simp only [searchAndReplace] at h
  split at h
  · cases h; rfl
  · split at h
    · cases h
    · cases h; rfl

/-- C10 (evaluation at the failing input): `openFile` on the one-line file `"abc"`, then
`moveCursor('d')` three times, gives cursor `{0, 3}`, which satisfies the cursor invariant.
`searchAndReplace("abc", "X")` then reports "replaced" and leaves the Document `["X"]` with
the cursor still at `{0, 3}`: the column exceeds the length 1 of the cursor line, the
invariant is broken, and the next `insertCharAtCursor` has no defined result. -/
theorem searchAndReplace_leaves_cursor_out_of_range :
    (run (openFile ["abc".data] empty) [.moveCursor 'd', .moveCursor 'd', .moveCursor 'd']).map
      (fun e3 => (e3.cursorPosition, cursorInRange e3,
        (searchAndReplace "abc".data "X".data e3).map (fun r =>
          (r.1, r.2.content.map (fun l => l.text), r.2.cursorPosition, cursorInRange r.2,
            (insertCharAtCursor 'z' r.2).isSome))))
      = some (⟨0, 3⟩, true, some (.allReplaced, ["X".data], ⟨0, 3⟩, false, false)) := by
  rfl

/-! ## Line edits, in detail -/

theorem insertIdx_eq_take_cons_drop {α : Type} (xs : List α) (n : Nat) (a : α)
    (h : n ≤ xs.length) : xs.insertIdx n a = xs.take n ++ a :: xs.drop n := by
  induction n generalizing xs with
  | zero => simp [List.insertIdx_zero]
  | succ n ih =>
      cases xs with
      | nil => simp at h
      | cons x rest =>
          rw [List.insertIdx_succ_cons, ih rest (by simpa using h)]
          simp

theorem map_insertIdx {α β : Type} (f : α → β) (xs : List α) (n : Nat) (a : α) :
    (xs.insertIdx n a).map f = (xs.map f).insertIdx n (f a) := by
  induction n generalizing xs with
  | zero => simp [List.insertIdx_zero]
  | succ n ih =>
      cases xs with
      | nil => rfl
      | cons x rest =>
          simp only [List.insertIdx_succ_cons, List.map_cons, ih rest]

theorem map_eraseIdx {α β : Type} (f : α → β) (xs : List α) (n : Nat) :
    (xs.eraseIdx n).map f = (xs.map f).eraseIdx n := by
  induction xs generalizing n with
  | nil => rfl
  | cons x rest ih =>
      cases n with
      | zero => rfl
      | succ n => simp only [List.eraseIdx_cons_succ, List.map_cons, ih n]

/-- C11: for every state, every line value and every position `p` with
`1 ≤ p ≤ len(Document) + 1`, `insertLine(p, line)` succeeds; the Document becomes the lines
before index `p - 1`, then the given line (style flags included), then the lines from index
`p - 1` on, all unchanged and in order; and the cursor becomes `{p - 1, length(line.text)}`. -/
theorem insertLine_inserts (e : TextEditor) (p : Int) (ft : FormattedText)
    (h1 : 1 ≤ p) (h2 : p ≤ (e.content.length : Int) + 1) :
    (insertLine p ft e).1 = .done ∧
    (insertLine p ft e).2.content
      = e.content.take (p - 1).toNat ++ ft :: e.content.drop (p - 1).toNat ∧
    (insertLine p ft e).2.content[(p - 1).toNat]? = some ft ∧
    (insertLine p ft e).2.content.length = e.content.length + 1 ∧
    (insertLine p ft e).2.cursorPosition = ⟨(p - 1).toNat, ft.text.length⟩ := by
  have hn : (p - 1).toNat ≤ e.content.length := by omega
  have hc : (insertLine p ft e).2.content
      = e.content.take (p - 1).toNat ++ ft :: e.content.drop (p - 1).toNat := by
    rw [insertLine_of_valid e p ft h1 h2]
    exact insertIdx_eq_take_cons_drop e.content _ ft hn
  refine ⟨by rw [insertLine_of_valid e p ft h1 h2], hc, ?_, ?_, ?_⟩
  · rw [hc]
    generalize (p - 1).toNat = n at hn
    have hlen : (List.take n e.content).length = n := by
      rw [List.length_take]; omega
    rw [List.getElem?_append_right (by omega), hlen, Nat.sub_self]
    simp
  · rw [hc]
    simp only [List.length_append, List.length_take, List.length_cons, List.length_drop]
    omega
  · rw [insertLine_of_valid e p ft h1 h2]
    rfl

/-- Witness for C11: `insertLine(1, {"new", bold})` on the empty Document gives `["new"]`
with cursor `{0, 3}`, and `undo` then gives the empty Document. -/
theorem insertLine_inserts_witness :
    (1 : Int) ≤ 1 ∧ (1 : Int) ≤ (empty.content.length : Int) + 1 ∧
    insertLine 1 lineNew empty = (.done, ⟨[lineNew], [[]], [], ⟨0, 3⟩⟩) ∧
    (undo (insertLine 1 lineNew empty).2).1 = .done ∧
    (undo (insertLine 1 lineNew empty).2).2.content = [] ∧
    ((insertLine 1 lineNew empty).1 = .done ∧
      (insertLine 1 lineNew empty).2.content
        = empty.content.take ((1 : Int) - 1).toNat ++ lineNew
            :: empty.content.drop ((1 : Int) - 1).toNat ∧
      (insertLine 1 lineNew empty).2.content[((1 : Int) - 1).toNat]? = some lineNew ∧
      (insertLine 1 lineNew empty).2.content.length = empty.content.length + 1 ∧
      (insertLine 1 lineNew empty).2.cursorPosition
        = ⟨((1 : Int) - 1).toNat, lineNew.text.length⟩) :=
  ⟨by decide, by decide, by decide, by decide, by decide,
    insertLine_inserts empty 1 lineNew (by decide) (by decide)⟩

/-- C12: for every state and every position `p` with `1 ≤ p ≤ len(Document)`, `deleteLine(p)`
succeeds; the Document becomes the lines before index `p - 1` followed by the lines after it,
unchanged and in order; the cursor becomes `{max(0, p - 2), 0}`; and when the Document had a
single line the result is the zero-line Document with cursor `{0, 0}`. -/
theorem deleteLine_deletes (e : TextEditor) (p : Int)
    (h1 : 1 ≤ p) (h2 : p ≤ (e.content.length : Int)) :
    (deleteLine p e).1 = .done ∧
    (deleteLine p e).2.content
      = e.content.take (p - 1).toNat ++ e.content.drop ((p - 1).toNat + 1) ∧
    (deleteLine p e).2.content.length + 1 = e.content.length ∧
    (deleteLine p e).2.cursorPosition = ⟨(max 0 (p - 2)).toNat, 0⟩ ∧
    (e.content.length = 1 →
      (deleteLine p e).2.content = [] ∧ (deleteLine p e).2.cursorPosition = ⟨0, 0⟩) := by
  have hc : (deleteLine p e).2.content
      = e.content.take (p - 1).toNat ++ e.content.drop ((p - 1).toNat + 1) := by
    rw [deleteLine_of_valid e p h1 h2]
    exact List.eraseIdx_eq_take_drop_succ _ _
  have hlen : (deleteLine p e).2.content.length + 1 = e.content.length := by
    rw [hc]
    simp only [List.length_append, List.length_take, List.length_drop]
    omega
  have hcur : (deleteLine p e).2.cursorPosition = ⟨(max 0 (p - 2)).toNat, 0⟩ := by
    rw [deleteLine_of_valid e p h1 h2]
    rfl
  refine ⟨by rw [deleteLine_of_valid e p h1 h2], hc, hlen, hcur, ?_⟩
  intro hone
  refine ⟨List.length_eq_zero.mp (by omega), ?_⟩
  rw [hcur]
  have : (max 0 (p - 2)).toNat = 0 := by omega
  rw [this]

/-- Witness for C12: `deleteLine(2)` on the two-line document `["abc", "abcabc"]`. -/
theorem deleteLine_deletes_witness :
    (1 : Int) ≤ 2 ∧ (2 : Int) ≤ ((⟨abcLines, [], [], ⟨0, 0⟩⟩ : TextEditor).content.length : Int) ∧
    deleteLine 2 ⟨abcLines, [], [], ⟨0, 0⟩⟩
      = (.done, ⟨[⟨"abc".data, false, false, false⟩], [abcLines], [], ⟨0, 0⟩⟩) ∧
    (deleteLine 2 ⟨abcLines, [], [], ⟨0, 0⟩⟩).2.content.length + 1 = abcLines.length :=
  ⟨by decide, by decide, by decide,
    (deleteLine_deletes ⟨abcLines, [], [], ⟨0, 0⟩⟩ 2 (by decide) (by decide)).2.2.1⟩

/-! ## Character edits, in detail -/

theorem set_eraseIdx_succ {α : Type} (xs : List α) (n : Nat) (a : α) (h : n + 1 < xs.length) :
    (xs.set n a).eraseIdx (n + 1) = xs.take n ++ a :: xs.drop (n + 2) := by
  induction n generalizing xs with
  | zero =>
      cases xs with
      | nil => simp at h
      | cons x rest =>
          cases rest with
          | nil => simp at h
          | cons y rest => simp
  | succ n ih =>
      cases xs with
      | nil => simp at h
      | cons x rest =>
          have h1 : n + 1 < rest.length := by simpa using h
          simp only [List.set_cons_succ, List.eraseIdx_cons_succ, List.take_succ_cons,
            List.drop_succ_cons, List.cons_append, ih rest h1]

/-- C13: for every state whose cursor is in range (the cursor line `l` exists and the column
is at most the length of its text) and every character `c`, `insertCharAtCursor(c)` returns;
the text of the cursor line becomes its first `column` characters, then `c`, then the
remaining characters, with the style flags of the line kept; every other line is unchanged
and the number of lines is the same; the column advances by exactly 1 and the cursor line is
unchanged. -/
theorem insertCharAtCursor_inserts (e : TextEditor) (c : Char) (l : FormattedText)
    (hl : e.content[e.cursorPosition.line]? = some l)
    (hc : e.cursorPosition.column ≤ l.text.length) :
    ∃ e1, insertCharAtCursor c e = some e1 ∧
      e1.content[e.cursorPosition.line]? = some { l with
        text := l.text.take e.cursorPosition.column ++ c :: l.text.drop e.cursorPosition.column } ∧
      (∀ i, i ≠ e.cursorPosition.line → e1.content[i]? = e.content[i]?) ∧
      e1.content.length = e.content.length ∧
      e1.cursorPosition = ⟨e.cursorPosition.line, e.cursorPosition.column + 1⟩ := by
  have hlt := lt_length_of_getElem? _ _ _ hl
  refine ⟨_, insertCharAtCursor_of_inRange e c l hl hc, ?_, ?_, ?_, rfl⟩
  · simp only [clearRedoHistory_content]
    rw [List.getElem?_set_self hlt, insertIdx_eq_take_cons_drop _ _ _ hc]
  · intro i hi
    simp only [clearRedoHistory_content]
    exact List.getElem?_set_ne (Ne.symm hi)
  · simp only [clearRedoHistory_content, List.length_set]

/-- Witness for C13: inserting `'z'` at `{0, 5}`, the end of the line of `["hello"]`. -/
theorem insertCharAtCursor_inserts_witness :
    helloEditor.content[helloEditor.cursorPosition.line]? = some ⟨"hello".data, false, false, false⟩ ∧
    helloEditor.cursorPosition.column ≤ "hello".data.length ∧
    (insertCharAtCursor 'z' helloEditor).map (fun e1 => (e1.content, e1.cursorPosition))
      = some ([⟨"helloz".data, false, false, false⟩], ⟨0, 6⟩) ∧
    ∃ e1, insertCharAtCursor 'z' helloEditor = some e1 ∧
      e1.content[helloEditor.cursorPosition.line]? = some
        { (⟨"hello".data, false, false, false⟩ : FormattedText) with
          text := "hello".data.take helloEditor.cursorPosition.column
            ++ 'z' :: "hello".data.drop helloEditor.cursorPosition.column } ∧
      (∀ i, i ≠ helloEditor.cursorPosition.line → e1.content[i]? = helloEditor.content[i]?) ∧
      e1.content.length = helloEditor.content.length ∧
      e1.cursorPosition
        = ⟨helloEditor.cursorPosition.line, helloEditor.cursorPosition.column + 1⟩ :=
  ⟨by decide, by decide, by decide,
    insertCharAtCursor_inserts helloEditor 'z' ⟨"hello".data, false, false, false⟩
      (by decide) (by decide)⟩

/-- C14: for every state whose cursor is in range, with `l` the cursor line: if the column
is positive, `deleteCharAtCursor` succeeds, removes exactly the character at offset
`column - 1` of the cursor line and decrements the column; if the column is 0 and the line
is positive, it succeeds, the previous line `prev` gets the text of `prev` followed by the
text of `l`, the cursor line is removed, every other line is kept, and the cursor becomes
`{line - 1, length of the original text of prev}`. -/
theorem deleteCharAtCursor_deletes (e : TextEditor) (l : FormattedText)
    (hl : e.content[e.cursorPosition.line]? = some l)
    (hc : e.cursorPosition.column ≤ l.text.length) :
    (0 < e.cursorPosition.column →
      ∃ e1, deleteCharAtCursor e = some (.done, e1) ∧
        e1.content = e.content.set e.cursorPosition.line { l with
          text := l.text.take (e.cursorPosition.column - 1)
            ++ l.text.drop e.cursorPosition.column } ∧
        e1.cursorPosition = ⟨e.cursorPosition.line, e.cursorPosition.column - 1⟩) ∧
    (e.cursorPosition.column = 0 → 0 < e.cursorPosition.line →
      ∃ prev e1, e.content[e.cursorPosition.line - 1]? = some prev ∧
        deleteCharAtCursor e = some (.done, e1) ∧
        e1.content = e.content.take (e.cursorPosition.line - 1)
          ++ { prev with text := prev.text ++ l.text }
            :: e.content.drop (e.cursorPosition.line + 1) ∧
        e1.cursorPosition = ⟨e.cursorPosition.line - 1, prev.text.length⟩) := by
  have hlt := lt_length_of_getElem? _ _ _ hl
  constructor
  · intro hpos
    refine ⟨_, deleteCharAtCursor_of_column_pos e l hl hc hpos, ?_, rfl⟩
    simp only [clearRedoHistory_content]
    rw [List.eraseIdx_eq_take_drop_succ]
    have : e.cursorPosition.column - 1 + 1 = e.cursorPosition.column := by omega
    rw [this]
  · intro hzero hline
    obtain ⟨prev, hprev⟩ := exists_getElem?_of_lt e.content (e.cursorPosition.line - 1)
      (by omega)
    refine ⟨prev, _, hprev, deleteCharAtCursor_of_column_zero e prev l hprev hl hzero hline,
      ?_, rfl⟩
    simp only [clearRedoHistory_content]
    obtain ⟨n, hn⟩ : ∃ n, e.cursorPosition.line = n + 1 :=
      ⟨e.cursorPosition.line - 1, by omega⟩
    rw [hn] at hlt ⊢
    simp only [Nat.add_sub_cancel]
    exact set_eraseIdx_succ e.content n _ hlt

/-- Witness for C14: on `["hello"]` with cursor `{0, 5}`, four deletes give `["h"]` with
cursor `{0, 1}`, the fifth gives `[""]` with cursor `{0, 0}`, and the sixth is refused with
"Nothing to delete!" and changes nothing. -/
theorem deleteCharAtCursor_deletes_witness :
    helloEditor.content[helloEditor.cursorPosition.line]? = some ⟨"hello".data, false, false, false⟩ ∧
    helloEditor.cursorPosition.column ≤ "hello".data.length ∧
    (run helloEditor (List.replicate 4 .deleteCharAtCursor)).map
        (fun e => (e.content, e.cursorPosition))
      = some ([⟨"h".data, false, false, false⟩], ⟨0, 1⟩) ∧
    (run helloEditor (List.replicate 5 .deleteCharAtCursor)).map
        (fun e => (e.content, e.cursorPosition,
          (deleteCharAtCursor e).map (fun r => (r.1, decide (r.2 = e)))))
      = some ([⟨[], false, false, false⟩], ⟨0, 0⟩, some (.nothingToDelete, true)) ∧
    (0 < helloEditor.cursorPosition.column →
      ∃ e1, deleteCharAtCursor helloEditor = some (.done, e1) ∧
        e1.content = helloEditor.content.set helloEditor.cursorPosition.line
          { (⟨"hello".data, false, false, false⟩ : FormattedText) with
            text := "hello".data.take (helloEditor.cursorPosition.column - 1)
              ++ "hello".data.drop helloEditor.cursorPosition.column } ∧
        e1.cursorPosition
          = ⟨helloEditor.cursorPosition.line, helloEditor.cursorPosition.column - 1⟩) :=
  ⟨by decide, by decide, by rfl, by rfl,
    (deleteCharAtCursor_deletes helloEditor ⟨"hello".data, false, false, false⟩
      (by decide) (by decide)).1⟩

/-! ## Cursor movement, in detail -/

theorem lineLength_of_getElem? (content : List FormattedText) (i : Nat) (l : FormattedText)
    (h : content[i]? = some l) : lineLength content i = l.text.length := by
  simp [lineLength, h]

/-- C15 (counterexample): the movement rules fail on reachable states with a non-empty
Document whose cursor is stale.  After `openFile` on the one-line file `"a"`,
`moveCursor('d')`, `insertCharAtCursor('b')` and `undo`, the Document is `["a"]` and the
cursor `{0, 2}`; `moveCursor('s')` leaves the column at 2 where the rule for Down clamps it
to 1.  After `openFile` on `"a"`, `insertLine(2, "bcd")` and `undo`, the Document is `["a"]`
and the cursor `{1, 3}`; `moveCursor('d')` reads line 1, which does not exist, and has no
defined result. -/
theorem moveCursor_rules_fail_on_stale_cursor :
    (∃ e, run (openFile ["a".data] empty)
          [.moveCursor 'd', .insertCharAtCursor 'b', .undo] = some e ∧
        e.content ≠ [] ∧ e.cursorPosition = ⟨0, 2⟩ ∧
        moveCursor 's' e = some e ∧
        moveCursorRef 's' e.content e.cursorPosition = ⟨0, 1⟩ ∧
        moveCursor 's' e
          ≠ some { e with cursorPosition := moveCursorRef 's' e.content e.cursorPosition }) ∧
    (∃ e, run (openFile ["a".data] empty)
          [.insertLine 2 ⟨"bcd".data, false, false, false⟩, .undo] = some e ∧
        e.content ≠ [] ∧ e.cursorPosition = ⟨1, 3⟩ ∧
        moveCursor 'd' e = none) :=
  ⟨⟨⟨[⟨"a".data, false, false, false⟩], [], [[⟨"ab".data, false, false, false⟩]], ⟨0, 2⟩⟩,
      by rfl, by decide, rfl, by decide, by decide, by decide⟩,
    ⟨⟨[⟨"a".data, false, false, false⟩], [],
        [[⟨"a".data, false, false, false⟩, ⟨"bcd".data, false, false, false⟩]], ⟨1, 3⟩⟩,
      by rfl, by decide, rfl, by decide⟩⟩

/-- C15 (amended): for every state whose cursor satisfies the cursor invariant (so the
Document is non-empty) and every direction, `moveCursor` returns the same Document and the
same two history stacks, with the cursor given by the reference rules: Up: line
`max(0, line - 1)`, column clamped to the new line length; Down: line
`min(last index, line + 1)`, column clamped to the new line length; Left: `column - 1` if
the column is positive, else the end of the previous line if the line is positive, else
unchanged; Right: `column + 1` if the column is before the end of the line, else column 0 of
the next line if the line is not the last, else unchanged. -/
theorem moveCursor_follows_rules (e : TextEditor) (direction : Char)
    (h : cursorInRange e = true) :
    moveCursor direction e
      = some { e with cursorPosition := moveCursorRef direction e.content e.cursorPosition } := by
  obtain ⟨l, hl, hc⟩ := (cursorInRange_iff e).mp h
  have hlt := lt_length_of_getElem? _ _ _ hl
  obtain ⟨up, hup⟩ := exists_getElem?_of_lt e.content (e.cursorPosition.line - 1) (by omega)
  have hsize := ltSizeMinusOne_iff e.cursorPosition.line e.content.length (by omega)
  have hlen := lineLength_of_getElem? _ _ _ hl
  have hlenup := lineLength_of_getElem? _ _ _ hup
  by_cases hw0 : direction = 'w'
  · have hw := eq_true hw0
    simp only [moveCursor, moveCursorRef, hw, if_true, hup, hlenup, Nat.min_comm]
  have hw := eq_false hw0
  by_cases ha0 : direction = 'a'
  · have ha := eq_true ha0
    have hs : (direction = 's') = False := eq_false (by rw [ha0]; decide)
    simp only [moveCursor, moveCursorRef, hw, ha, hs, if_true, if_false]
    by_cases hcol : e.cursorPosition.column > 0
    · simp only [hcol, if_true]
    · by_cases hline : e.cursorPosition.line > 0
      · simp only [hcol, hline, if_true, if_false, hup, hlenup]
      · simp only [hcol, hline, if_false]
  have ha := eq_false ha0
  by_cases hs0 : direction = 's'
  · have hs := eq_true hs0
    simp only [moveCursor, moveCursorRef, hw, ha, hs, if_true, if_false]
    by_cases hdown : ltSizeMinusOne e.cursorPosition.line e.content.length = true
    · have hnext := hsize.mp hdown
      obtain ⟨down, hdn⟩ := exists_getElem?_of_lt e.content (e.cursorPosition.line + 1) hnext
      have hmin : min (e.content.length - 1) (e.cursorPosition.line + 1)
          = e.cursorPosition.line + 1 := by omega
      simp only [hdown, if_true, hdn, hmin, lineLength_of_getElem? _ _ _ hdn]
    · have hlast : ¬ (e.cursorPosition.line + 1 < e.content.length) := fun hn =>
        hdown (hsize.mpr hn)
      have hmin : min (e.content.length - 1) (e.cursorPosition.line + 1)
          = e.cursorPosition.line := by omega
      have hcolmin : min e.cursorPosition.column l.text.length = e.cursorPosition.column := by
        omega
      simp only [hdown, Bool.false_eq_true, if_false, hmin, hlen, hcolmin]
  have hs := eq_false hs0
  by_cases hd0 : direction = 'd'
  · have hd := eq_true hd0
    simp only [moveCursor, moveCursorRef, hw, ha, hs, hd, if_true, if_false, hl, hlen]
    by_cases hcol : e.cursorPosition.column < l.text.length
    · simp only [hcol, if_true]
    · by_cases hdown : ltSizeMinusOne e.cursorPosition.line e.content.length = true
      · have hnext := hsize.mp hdown
        have hne : e.cursorPosition.line ≠ e.content.length - 1 := by omega
        simp only [hcol, hdown, hne, if_true, if_false, ne_eq, not_false_eq_true]
      · have hlast : ¬ (e.cursorPosition.line + 1 < e.content.length) := fun hn =>
          hdown (hsize.mpr hn)
        have hne : ¬ (e.cursorPosition.line ≠ e.content.length - 1) := by omega
        simp only [hcol, hdown, hne, Bool.false_eq_true, if_false]
  · have hd := eq_false hd0
    simp only [moveCursor, moveCursorRef, hw, ha, hs, hd, if_false]

/-- Witness for C15: moving down from `{0, 3}`, the end of the first line of
`["abc", "abcabc"]`. -/
theorem moveCursor_follows_rules_witness :
    cursorInRange ⟨abcLines, [], [], ⟨0, 3⟩⟩ = true ∧
    moveCursor 's' ⟨abcLines, [], [], ⟨0, 3⟩⟩ = some ⟨abcLines, [], [], ⟨1, 3⟩⟩ ∧
    moveCursor 's' ⟨abcLines, [], [], ⟨0, 3⟩⟩
      = some { (⟨abcLines, [], [], ⟨0, 3⟩⟩ : TextEditor) with
          cursorPosition := moveCursorRef 's' abcLines ⟨0, 3⟩ } :=
  ⟨by decide, by decide, moveCursor_follows_rules ⟨abcLines, [], [], ⟨0, 3⟩⟩ 's' (by decide)⟩

/-! ## Style flags -/

theorem set_of_getElem? {α : Type} (xs : List α) (i : Nat) (x : α) (h : xs[i]? = some x) :
    xs.set i x = xs := by
  induction xs generalizing i with
  | nil => rfl
  | cons y rest ih =>
      cases i with
      | zero =>
          have hy : y = x := by simpa using h
          rw [hy]; rfl
      | succ i =>
          have hi : rest[i]? = some x := by simpa using h
          simp only [List.set_cons_succ, ih i hi]

/-- Replacing a line by one with the same flags leaves the style flags of the document. -/
theorem styles_set (content : List FormattedText) (i : Nat) (l l1 : FormattedText)
    (hl : content[i]? = some l)
    (hflags : (l1.bold, l1.italic, l1.underline) = (l.bold, l.italic, l.underline)) :
    styles (content.set i l1) = styles content := by
  unfold styles
  rw [List.map_set]
  apply set_of_getElem?
  rw [List.getElem?_map, hl]
  simp only [Option.map_some', hflags]

theorem styles_replaceAll (content : List FormattedText) (s r : List Char) :
    styles (content.map (fun l => { l with text := replaceAllRef s r 0 l.text }))
      = styles content := by
  unfold styles
  rw [List.map_map]
  rfl

theorem searchAndReplace_styles (e e1 : TextEditor) (s r : List Char) (st : Status)
    (h : searchAndReplace s r e = some (st, e1)) : styles e1.content = styles e.content := by
  by_cases hs : s = []
  · have hemp : s.isEmpty = true := by rw [hs]; rfl
    simp only [searchAndReplace, hemp, if_true, Option.some.injEq, Prod.mk.injEq] at h
    rw [← h.2]
  · rw [searchAndReplace_eq e s r hs] at h
    have h2 := (Prod.mk.inj (Option.some.inj h)).2
    rw [← h2]
    exact styles_replaceAll e.content s r

theorem insertCharAtCursor_styles (e e1 : TextEditor) (c : Char)
    (h : insertCharAtCursor c e = some e1) : styles e1.content = styles e.content := by
  simp only [insertCharAtCursor] at h
  split at h
  · cases h
  · rename_i l hl
    split at h
    · cases h
    · cases h
      exact styles_set e.content _ l _ hl rfl

theorem deleteCharAtCursor_styles (e e1 : TextEditor) (st : Status)
    (h : deleteCharAtCursor e = some (st, e1)) :
    (0 < e.cursorPosition.column → styles e1.content = styles e.content) ∧
    (e.cursorPosition.column = 0 → 0 < e.cursorPosition.line →
      styles e1.content = (styles e.content).eraseIdx e.cursorPosition.line) := by
  simp only [deleteCharAtCursor] at h
  split at h
  · rename_i h0
    exact ⟨fun hp => by omega, fun _ hp => by omega⟩
  · split at h
    · rename_i hpos
      refine ⟨fun _ => ?_, fun hz _ => ?_⟩
      · split at h
        · cases h
        · rename_i l hl
          split at h
          · cases h
          · have h2 := (Prod.mk.inj (Option.some.inj h)).2
            rw [← h2]
            exact styles_set e.content _ l _ hl rfl
      · simp only [saveStateForUndo_cursorPosition] at hpos
        omega
    · rename_i hpos
      simp only [saveStateForUndo_cursorPosition] at hpos
      refine ⟨fun hp => absurd hp hpos, fun _ hline => ?_⟩
      split at h
      · split at h
        · rename_i prev l hprev hl
          have h2 := (Prod.mk.inj (Option.some.inj h)).2
          rw [← h2]
          simp only [clearRedoHistory_content, saveStateForUndo_content,
            saveStateForUndo_cursorPosition]
          have hset := styles_set e.content (e.cursorPosition.line - 1) prev
            { prev with text := prev.text ++ l.text } hprev rfl
          unfold styles at hset ⊢
          rw [map_eraseIdx, hset]
        · cases h
      · rename_i hl0
        simp only [saveStateForUndo_cursorPosition] at hl0
        exact absurd hline hl0

/-- C16: style flags are opaque to editing.  Whenever they return, `searchAndReplace` and
`insertCharAtCursor` leave the sequence of `(bold, italic, underline)` triples of the
Document as it was; so does `deleteCharAtCursor` with a positive column, and in its
line-merge case the sequence only loses the entry of the removed cursor line, so every
surviving line, the merged previous line included, keeps its flags; a successful
`insertLine` only adds the entry of the inserted line at index `p - 1` and a successful
`deleteLine` only removes the entry at index `p - 1`. -/
theorem styles_opaque_to_editing (e : TextEditor) :
    (∀ (s r : List Char) (st : Status) (e1 : TextEditor),
      searchAndReplace s r e = some (st, e1) → styles e1.content = styles e.content) ∧
    (∀ (c : Char) (e1 : TextEditor),
      insertCharAtCursor c e = some e1 → styles e1.content = styles e.content) ∧
    (∀ (st : Status) (e1 : TextEditor), deleteCharAtCursor e = some (st, e1) →
      (0 < e.cursorPosition.column → styles e1.content = styles e.content) ∧
      (e.cursorPosition.column = 0 → 0 < e.cursorPosition.line →
        styles e1.content = (styles e.content).eraseIdx e.cursorPosition.line)) ∧
    (∀ (p : Int) (ft : FormattedText), (insertLine p ft e).1 = .done →
      styles (insertLine p ft e).2.content
        = (styles e.content).insertIdx (p - 1).toNat (ft.bold, ft.italic, ft.underline)) ∧
    (∀ p : Int, (deleteLine p e).1 = .done →
      styles (deleteLine p e).2.content = (styles e.content).eraseIdx (p - 1).toNat) := by
  refine ⟨fun s r st e1 h => searchAndReplace_styles e e1 s r st h,
    fun c e1 h => insertCharAtCursor_styles e e1 c h,
    fun st e1 h => deleteCharAtCursor_styles e e1 st h, ?_, ?_⟩
  · intro p ft h
    by_cases hp : p < 1 ∨ p > (e.content.length : Int) + 1
    · simp [insertLine, hp] at h
    · rw [insertLine_of_valid e p ft (by omega) (by omega)]
      exact map_insertIdx _ e.content _ ft
  · intro p h
    by_cases hp : p < 1 ∨ p > (e.content.length : Int)
    · simp [deleteLine, hp] at h
    · rw [deleteLine_of_valid e p (by omega) (by omega)]
      exact map_eraseIdx _ e.content _

/-- Witness for C16: on `[{"new", bold}, {"hello"}]` with the cursor at the start of the
second line, `deleteCharAtCursor` merges the two lines and the merged line is still bold;
`searchAndReplace("l", "L")` keeps both triples. -/
theorem styles_opaque_to_editing_witness :
    deleteCharAtCursor ⟨[lineNew, ⟨"hello".data, false, false, false⟩], [], [], ⟨1, 0⟩⟩
      = some (.done, ⟨[⟨"newhello".data, true, false, false⟩],
          [[lineNew, ⟨"hello".data, false, false, false⟩]], [], ⟨0, 3⟩⟩) ∧
    styles [⟨"newhello".data, true, false, false⟩]
      = (styles [lineNew, ⟨"hello".data, false, false, false⟩]).eraseIdx 1 ∧
    (searchAndReplace "l".data "L".data
        ⟨[lineNew, ⟨"hello".data, false, false, false⟩], [], [], ⟨1, 0⟩⟩).map
          (fun r => (r.2.content.map (fun l => l.text), styles r.2.content))
      = some (["new".data, "heLLo".data], [(true, false, false), (false, false, false)]) :=
  ⟨by decide,
    ((styles_opaque_to_editing
        ⟨[lineNew, ⟨"hello".data, false, false, false⟩], [], [], ⟨1, 0⟩⟩).2.2.1 .done
      ⟨[⟨"newhello".data, true, false, false⟩],
        [[lineNew, ⟨"hello".data, false, false, false⟩]], [], ⟨0, 3⟩⟩ (by decide)).2
      (by decide) (by decide),
    by rfl⟩

/-! ## Undo and redo, in detail -/

/-- C17: on a non-empty undo stack, `undo` sets the Document to the former top of the undo
stack, removes that top, pushes the former Document onto the redo stack and leaves the
cursor unchanged; symmetrically, on a non-empty redo stack, `redo` sets the Document to the
former top of the redo stack, removes it, pushes the former Document onto the undo stack and
leaves the cursor unchanged. -/
theorem undo_redo_swap (e : TextEditor) :
    (∀ (top : List FormattedText) (rest : List (List FormattedText)),
      e.undoStack = top :: rest →
      undo e = (.done, ⟨top, rest, e.content :: e.redoStack, e.cursorPosition⟩)) ∧
    (∀ (top : List FormattedText) (rest : List (List FormattedText)),
      e.redoStack = top :: rest →
      redo e = (.done, ⟨top, e.content :: e.undoStack, rest, e.cursorPosition⟩)) := by
  constructor
  · intro top rest h
    simp [undo, h]
  · intro top rest h
    simp [redo, h]

/-- Witness for C17: `undo` and `redo` on a state with one snapshot on each stack. -/
theorem undo_redo_swap_witness :
    undo ⟨[lineA], [[]], [[lineA, lineA]], ⟨0, 1⟩⟩
      = (.done, ⟨[], [], [[lineA], [lineA, lineA]], ⟨0, 1⟩⟩) ∧
    redo ⟨[lineA], [[]], [[lineA, lineA]], ⟨0, 1⟩⟩
      = (.done, ⟨[lineA, lineA], [[lineA], []], [], ⟨0, 1⟩⟩) :=
  ⟨(undo_redo_swap ⟨[lineA], [[]], [[lineA, lineA]], ⟨0, 1⟩⟩).1 [] [] rfl,
    (undo_redo_swap ⟨[lineA], [[]], [[lineA, lineA]], ⟨0, 1⟩⟩).2 [lineA, lineA] [] rfl⟩

/-- C18 (counterexample): after `openFile` on an empty file, two `insertLine(1, "a")` and two
`undo`, the redo stack holds two snapshots, so it is not bounded by one entry. -/
theorem redoStack_holds_two_after_two_undos :
    run (openFile [] empty) [.insertLine 1 lineA, .insertLine 1 lineA, .undo, .undo]
      = some ⟨[], [], [[lineA], [lineA, lineA]], ⟨0, 1⟩⟩ ∧
    ¬ ((⟨[], [], [[lineA], [lineA, lineA]], ⟨0, 1⟩⟩ : TextEditor).redoStack.length ≤ 1) := by
  constructor
  · rfl
  · decide

/-- C18 (amended): from an editor whose two history stacks are empty, every state reached by
any finite sequence of commands has at most 10 snapshots on the redo stack; more precisely
the undo stack and the redo stack together hold at most 10 snapshots. -/
theorem redoStack_length_le_ten (e0 e : TextEditor) (cmds : List Command)
    (hu : e0.undoStack = []) (hr : e0.redoStack = []) (h : run e0 cmds = some e) :
    e.redoStack.length ≤ 10 ∧ e.undoStack.length + e.redoStack.length ≤ 10 := by
  have h0 : historyBounded e0 := by simp [historyBounded, hu, hr]
  have h1 := run_historyBounded cmds e0 e h h0
  unfold historyBounded at h1
  exact ⟨by omega, h1⟩

/-- Witness for C18 (amended): two inserts and two undos from the empty editor. -/
theorem redoStack_length_le_ten_witness :
    empty.undoStack = [] ∧ empty.redoStack = [] ∧
    run empty [.insertLine 1 lineA, .insertLine 1 lineA, .undo, .undo]
      = some ⟨[], [], [[lineA], [lineA, lineA]], ⟨0, 1⟩⟩ ∧
    (⟨[], [], [[lineA], [lineA, lineA]], ⟨0, 1⟩⟩ : TextEditor).redoStack.length ≤ 10 ∧
    (⟨[], [], [[lineA], [lineA, lineA]], ⟨0, 1⟩⟩ : TextEditor).undoStack.length
      + (⟨[], [], [[lineA], [lineA, lineA]], ⟨0, 1⟩⟩ : TextEditor).redoStack.length ≤ 10 :=
  ⟨rfl, rfl, by rfl,
    redoStack_length_le_ten empty ⟨[], [], [[lineA], [lineA, lineA]], ⟨0, 1⟩⟩
      [.insertLine 1 lineA, .insertLine 1 lineA, .undo, .undo] rfl rfl (by rfl)⟩

/-- C19: undo can leave the cursor stale and out of range.  From `openFile` on the one-line
file `"a"`, `insertLine(2, "bcd")` succeeds and sets the cursor to `{1, 3}`; the `undo` after
it succeeds and gives back the one-line Document `["a"]`, which is not empty, while the
cursor is still `{1, 3}`: its line is not below the number of lines. -/
theorem undo_leaves_cursor_out_of_range :
    (openFile ["a".data] empty).content = [⟨"a".data, false, false, false⟩] ∧
    (openFile ["a".data] empty).undoStack = [] ∧
    (openFile ["a".data] empty).redoStack = [] ∧
    ∃ e1, exec (openFile ["a".data] empty) (.insertLine 2 ⟨"bcd".data, false, false, false⟩)
        = some (.done, e1) ∧
      e1.cursorPosition = ⟨1, 3⟩ ∧
      (undo e1).1 = .done ∧
      (undo e1).2.content = [⟨"a".data, false, false, false⟩] ∧
      (undo e1).2.content ≠ [] ∧
      (undo e1).2.cursorPosition = ⟨1, 3⟩ ∧
      (undo e1).2.content.length ≤ (undo e1).2.cursorPosition.line ∧
      cursorInRange (undo e1).2 = false :=
  ⟨by rfl, by rfl, by rfl,
    ⟨[⟨"a".data, false, false, false⟩, ⟨"bcd".data, false, false, false⟩],
        [[⟨"a".data, false, false, false⟩]], [], ⟨1, 3⟩⟩,
      by rfl, rfl, by rfl, by rfl, by decide, by rfl, by decide, by rfl⟩

/-! ## Bounds safety -/

/-- C20: for every state whose cursor satisfies the cursor invariant, `insertCharAtCursor`
(for every character), `deleteCharAtCursor` and `moveCursor` (for every direction) return a
result: the branch of the embedding that stands for an out-of-range line access or string
offset is never taken. -/
theorem cursor_operations_in_bounds (e : TextEditor) (h : cursorInRange e = true) :
    (∀ c : Char, insertCharAtCursor c e ≠ none) ∧
    deleteCharAtCursor e ≠ none ∧
    (∀ direction : Char, moveCursor direction e ≠ none) := by
  refine ⟨fun c => ?_, ?_, fun direction => ?_⟩
  · obtain ⟨e1, h1, _⟩ := insertCharAtCursor_cursorInRange e c h
    rw [h1]; exact Option.some_ne_none _
  · obtain ⟨st, e1, h1, _⟩ := deleteCharAtCursor_cursorInRange e h
    rw [h1]; exact Option.some_ne_none _
  · obtain ⟨e1, h1, _⟩ := moveCursor_cursorInRange e direction h
    rw [h1]; exact Option.some_ne_none _

/-- Witness for C20: the document `["abc", "abcabc"]` with the cursor at the end of its last
line. -/
theorem cursor_operations_in_bounds_witness :
    cursorInRange ⟨abcLines, [], [], ⟨1, 6⟩⟩ = true ∧
    (∀ c : Char, insertCharAtCursor c ⟨abcLines, [], [], ⟨1, 6⟩⟩ ≠ none) ∧
    deleteCharAtCursor ⟨abcLines, [], [], ⟨1, 6⟩⟩ ≠ none ∧
    (∀ direction : Char, moveCursor direction ⟨abcLines, [], [], ⟨1, 6⟩⟩ ≠ none) :=
  ⟨by decide, cursor_operations_in_bounds ⟨abcLines, [], [], ⟨1, 6⟩⟩ (by decide)⟩

end TextEditor
